import Mathlib

/-!
Verification development for the review unification / translation / enrichment /
scoring pipeline (`engine/database/db_manager.py`,
`engine/review_enrichment_processor.py`, `engine/clinic_scoring_system.py`).

Modelling conventions, fixed throughout:
* Mongo documents are modelled as Lean structures (one field per dict key that
  some claim or some downstream stage reads; passthrough fields that are copied
  verbatim and never read again are omitted).
* Mongo ObjectIds and all document identities are `String`.
* `datetime.utcnow()` is an explicit `now : Nat` parameter (wall-clock is an
  external input).
* External collaborators (langdetect, the Gemini text-generation API, the
  network success of a Mongo call) are explicit environment parameters; a
  `Bool`/`Option` encodes raise-vs-return of the wrapped call.
* Python floats are idealised as `ℚ`; Python `round(x, n)` is round-half-even
  on rationals (`pyRound`).
-/

namespace Verisanus

/-! ### Canonical record mapper (db_manager.py lines 106-230)

Raw scraped documents.  Each optional field models `review.get(key)`:
`none` = key absent (or stored as null).  Fields of the raw documents that the
mapper copies verbatim into passthrough attributes never read by any later
stage (photo urls, address block, business block, ...) are omitted.
-/

structure GoogleRaw where
  _id : String
  review_id : Option String
  establishment_id : Option String
  name : Option String
  reviewerId : Option String
  isLocalGuide : Option Bool
  rating : Option Int
  stars : Option Int
  text : Option String
  textTranslated : Option String
  publishedAtDate : Option String
  publishAt : Option String
  likesCount : Option Int
  responseFromOwnerDate : Option String
  responseFromOwnerText : Option String
  language : Option String
  deriving DecidableEq

structure TrustpilotRaw where
  _id : String
  review_id : Option String
  establishment_id : Option String
  numberOfReviews : Option Int
  ratingValue : Option Int
  reviewHeadline : Option String
  reviewBody : Option String
  datePublished : Option String
  verified : Option Bool
  likes : Option Int
  reviewLanguage : Option String
  consumerCountryCode : Option String
  deriving DecidableEq

/-- A document of the `unified_reviews` (and, after language standardization,
`ls_unified_reviews`) collection.  `response_from_owner_language` is only ever
written by the language-standardization stage; before that stage the key is
absent, which we conflate with `none`. -/
structure UnifiedReview where
  _id : String
  original_review_id : Option String
  establishment_id : Option String
  platform : String
  author_name : Option String
  author_id : Option String
  author_review_count : Option Int
  is_local_guide : Option Bool
  rating : Option Int
  title : Option String
  review_text : Option String
  review_text_translated : Option String
  review_date : Option String
  published_at : Option String
  published_at_date : Option String
  verified_purchase : Option Bool
  helpful_votes : Option Int
  response_from_owner_date : Option String
  response_from_owner_text : Option String
  review_language : Option String
  country_code : Option String
  response_from_owner_language : Option String
  created_at : Nat
  updated_at : Nat
  deriving DecidableEq

/-- Python truthiness of an optional string (`if s:`): present and non-empty. -/
def truthyS : Option String → Bool
  | none => false
  | some s => s ≠ ""

/-- Python `str.strip()` / Lean `String.trim`, implemented by structural
recursion over the character list so that it evaluates inside the kernel. -/
def pyStrip (s : String) : String :=
  ⟨((s.data.dropWhile Char.isWhitespace).reverse.dropWhile Char.isWhitespace).reverse⟩

/-- `review.get('rating') or review.get('stars')`: Python `or` falls through on
a falsy (`None` or `0`) left operand. -/
def ratingOrStars (rating stars : Option Int) : Option Int :=
  match rating with
  | some v => if v ≠ 0 then some v else stars
  | none => stars

/-- `DatabaseManager._standardize_google_review` (db_manager.py lines 106-167).
The unified `_id` is the raw document's Mongo `_id`, copied verbatim. -/
def _standardize_google_review (now : Nat) (r : GoogleRaw) : UnifiedReview :=
  { _id := r._id
    original_review_id := r.review_id
    establishment_id := r.establishment_id
    platform := "google"
    author_name := r.name
    author_id := r.reviewerId
    author_review_count := none
    is_local_guide := some (r.isLocalGuide.getD false)
    rating := ratingOrStars r.rating r.stars
    title := none
    review_text := some (r.text.getD "")
    review_text_translated := r.textTranslated
    review_date := some (r.publishedAtDate.getD "")
    published_at := r.publishAt
    published_at_date := r.publishedAtDate
    verified_purchase := none
    helpful_votes := some (r.likesCount.getD 0)
    response_from_owner_date := r.responseFromOwnerDate
    response_from_owner_text := r.responseFromOwnerText
    review_language := r.language
    country_code := none
    response_from_owner_language := none
    created_at := now
    updated_at := now }

/-- `DatabaseManager._standardize_trustpilot_review` (db_manager.py lines
169-230).  Again `_id` is the raw document's Mongo `_id`. -/
def _standardize_trustpilot_review (now : Nat) (r : TrustpilotRaw) : UnifiedReview :=
  { _id := r._id
    original_review_id := r.review_id
    establishment_id := r.establishment_id
    platform := "trustpilot"
    author_name := none
    author_id := none
    author_review_count := r.numberOfReviews
    is_local_guide := none
    rating := some (r.ratingValue.getD 0)
    title := some (r.reviewHeadline.getD "")
    review_text := some (r.reviewBody.getD "")
    review_text_translated := none
    review_date := some (r.datePublished.getD "")
    published_at := none
    published_at_date := r.datePublished
    verified_purchase := some (r.verified.getD false)
    helpful_votes := some (r.likes.getD 0)
    response_from_owner_date := none
    response_from_owner_text := none
    review_language := r.reviewLanguage
    country_code := r.consumerCountryCode
    response_from_owner_language := none
    created_at := now
    updated_at := now }

/-! ### Incremental unification stage (db_manager.py lines 232-329)

`unify_reviews_incremental` reads the raw `google` and `trustpilot`
collections in that order with one shared `reviews_to_insert` buffer, skips
records whose `_id` is already unified, and flushes the buffer with
`insert_many(ordered=False)` every 1000 buffered documents and once more at
end of stream.  A flush can fail as a whole (it is wrapped in try/except,
logged, and the buffer is cleared regardless); `wok i` tells whether the
`i`-th `insert_many` call of the run succeeds.  `attempted` records every
document that was passed to some `insert_many` call. -/

inductive RawReview where
  | google (g : GoogleRaw)
  | trustpilot (t : TrustpilotRaw)
  deriving DecidableEq

def rawId : RawReview → String
  | .google g => g._id
  | .trustpilot t => t._id

def standardizeRaw (now : Nat) : RawReview → UnifiedReview
  | .google g => _standardize_google_review now g
  | .trustpilot t => _standardize_trustpilot_review now t

structure UnifyState where
  store : List UnifiedReview
  buffer : List UnifiedReview
  attempted : List UnifiedReview
  flushIdx : Nat
  countGoogle : Nat
  countTrustpilot : Nat
  deriving DecidableEq

def initUnifyState (store : List UnifiedReview) : UnifyState :=
  { store := store, buffer := [], attempted := [], flushIdx := 0
    countGoogle := 0, countTrustpilot := 0 }

/-- One `insert_many(reviews_to_insert, ordered=False)` followed by
`reviews_to_insert.clear()`; on failure the batch is logged and dropped. -/
def doFlush (wok : Nat → Bool) (s : UnifyState) : UnifyState :=
  { s with
    store := if wok s.flushIdx then s.store ++ s.buffer else s.store
    buffer := []
    attempted := s.attempted ++ s.buffer
    flushIdx := s.flushIdx + 1 }

/-- One iteration of the per-review loops of `unify_reviews_incremental`
(lines 267-288 for google, 294-315 for trustpilot): skip if the raw `_id` is
already unified, otherwise standardize, buffer, and flush at 1000. -/
def unifyStep (now : Nat) (wok : Nat → Bool) (existing : List String)
    (s : UnifyState) (r : RawReview) : UnifyState :=
  if rawId r ∈ existing then s
  else
    let s :=
      match r with
      | .google g =>
          { s with buffer := s.buffer ++ [_standardize_google_review now g]
                   countGoogle := s.countGoogle + 1 }
      | .trustpilot t =>
          { s with buffer := s.buffer ++ [_standardize_trustpilot_review now t]
                   countTrustpilot := s.countTrustpilot + 1 }
    if 1000 ≤ s.buffer.length then doFlush wok s else s

def processUnify (now : Nat) (wok : Nat → Bool) (existing : List String)
    (s : UnifyState) (input : List RawReview) : UnifyState :=
  input.foldl (unifyStep now wok existing) s

/-- `DatabaseManager.get_existing_unified_review_ids` (lines 232-235): a plain
`distinct("_id")` with no exception handling — a fetch failure propagates to
the caller.  `fetchOk` is whether the underlying store call succeeds. -/
def get_existing_unified_review_ids (fetchOk : Bool)
    (store : List UnifiedReview) : Except Unit (List String) :=
  if fetchOk then .ok (store.map (·._id)) else .error ()

/-- `DatabaseManager.unify_reviews_incremental` (lines 237-329).  The final
component is `true` iff the run aborted with an exception (which happens
exactly when the existing-ids fetch raised, before any write). -/
def unify_reviews_incremental (now : Nat) (wok : Nat → Bool) (fetchOk : Bool)
    (store : List UnifiedReview) (input : List RawReview) :
    UnifyState × Bool :=
  match get_existing_unified_review_ids fetchOk store with
  | .error _ => (initUnifyState store, true)
  | .ok existing =>
      let s := processUnify now wok existing (initUnifyState store) input
      (if s.buffer = [] then s else doFlush wok s, false)

/-- A user interruption (KeyboardInterrupt) after `k` processed raw records:
the per-review loops of `unify_reviews_incremental` have no interrupt handler,
so the exception propagates and the end-of-stream flush of lines 317-323 is
never reached — the state is exactly the mid-loop state. -/
def unifyInterrupted (now : Nat) (wok : Nat → Bool)
    (store : List UnifiedReview) (input : List RawReview) (k : Nat) :
    UnifyState :=
  processUnify now wok (store.map (·._id)) (initUnifyState store)
    (input.take k)

/-! ### Language detection and translation cache (db_manager.py lines 393-464)

External collaborators: `langdetect.detect` and the Gemini generate call.
`detect t = none` models a raised detection exception (treated as "no
language"); `translateCall i t = none` models any failure of the `i`-th
external generate attempt of the run (missing API key file or API exception),
after which `_translate_text` returns the original text.  `md5hex` stands for
`hashlib.md5(...).hexdigest()`: an arbitrary deterministic content hash. -/

structure TransEnv where
  detect : String → Option String
  translateCall : Nat → String → Option String
  md5hex : String → String

/-- Process-lifetime translation state: the content-hash cache
(`self.translation_cache`), the progress counter
(`self.translation_counter`), and the number of external generate attempts
(`calls`, our bookkeeping for "an external translator call was performed"). -/
structure TransState where
  cache : List (String × String)
  counter : Nat
  calls : Nat
  deriving DecidableEq

def initTransState : TransState := { cache := [], counter := 0, calls := 0 }

/-- `DatabaseManager._detect_language` (lines 393-402): `None` for missing,
empty or very short text, and `None` on detector failure or an empty detector
result (`detected if detected else None`). -/
def _detect_language (env : TransEnv) (text : Option String) : Option String :=
  match text with
  | none => none
  | some t =>
      if (pyStrip t).length < 5 then none
      else match env.detect t with
        | none => none
        | some d => if d = "" then none else some d

/-- `DatabaseManager._translate_text` (lines 408-464): no-op on blank text;
content-hash cache lookup before any external work; on a miss the progress
counter is incremented, the external call is attempted, a successful
(stripped) result is cached and returned, and any failure returns the
original text uncached. -/
def _translate_text (env : TransEnv) (st : TransState) (text : String) :
    String × TransState :=
  if pyStrip text = "" then (text, st)
  else
    match st.cache.lookup (env.md5hex text) with
    | some cached => (cached, st)
    | none =>
        let st1 : TransState := { st with counter := st.counter + 1 }
        match env.translateCall st1.calls text with
        | some raw =>
            let translated := pyStrip raw
            (translated,
              { st1 with cache := (env.md5hex text, translated) :: st1.cache
                         calls := st1.calls + 1 })
        | none => (text, { st1 with calls := st1.calls + 1 })

/-- A sequence of further `_translate_text` calls within the same run
(arbitrary texts, in order), threading the cache state. -/
def runTranslations (env : TransEnv) (st : TransState) :
    List String → TransState
  | [] => st
  | t :: ts => runTranslations env (_translate_text env st t).2 ts

/-! ### Language-standardization stage (db_manager.py lines 466-524, 620-840) -/

/-- `DatabaseManager._standardize_google_review_ls` (lines 466-484): detect
the owner-response language, record it, and translate the response when it is
non-English. -/
def _standardize_google_review_ls (env : TransEnv) (now : Nat)
    (st : TransState) (r : UnifiedReview) : UnifiedReview × TransState :=
  let lang := _detect_language env r.response_from_owner_text
  let r1 := { r with response_from_owner_language := lang }
  match r.response_from_owner_text, lang with
  | some rt, some l =>
      if rt ≠ "" ∧ l ≠ "" ∧ l ≠ "en" then
        let p := _translate_text env st rt
        ({ r1 with response_from_owner_text := some p.1, updated_at := now }, p.2)
      else ({ r1 with updated_at := now }, st)
  | _, _ => ({ r1 with updated_at := now }, st)

/-- `'\n' in s` -/
def containsNL (s : String) : Bool := s.data.contains '\n'

/-- `s.split('\n', 1)`: the part before the first newline and the remainder
after it. -/
def splitFirstNL (s : String) : String × String :=
  let pre := s.data.takeWhile (fun c => c != '\n')
  (⟨pre⟩, ⟨s.data.drop (pre.length + 1)⟩)

/-- `DatabaseManager._standardize_trustpilot_review_ls` (lines 486-524):
additionally translates non-English review content; title and body are
concatenated with a newline, translated as one text, and split back on the
first newline when the original had a title. -/
def _standardize_trustpilot_review_ls (env : TransEnv) (now : Nat)
    (st : TransState) (r : UnifiedReview) : UnifiedReview × TransState :=
  let lang := _detect_language env r.response_from_owner_text
  let r1 := { r with response_from_owner_language := lang }
  let contentStep : UnifiedReview × TransState :=
    if truthyS r.review_language ∧ r.review_language ≠ some "en" then
      let title := r.title.getD ""
      let reviewText := r.review_text.getD ""
      let combined := pyStrip (title ++ "\n" ++ reviewText)
      if combined ≠ "" then
        let p := _translate_text env st combined
        if title ≠ "" ∧ containsNL p.1 then
          let q := splitFirstNL p.1
          ({ r1 with title := some q.1, review_text := some q.2 }, p.2)
        else ({ r1 with review_text := some p.1 }, p.2)
      else (r1, st)
    else (r1, st)
  let r2 := contentStep.1
  let st2 := contentStep.2
  match r.response_from_owner_text, lang with
  | some rt, some l =>
      if rt ≠ "" ∧ l ≠ "" ∧ l ≠ "en" then
        let p := _translate_text env st2 rt
        ({ r2 with response_from_owner_text := some p.1, updated_at := now }, p.2)
      else ({ r2 with updated_at := now }, st2)
  | _, _ => ({ r2 with updated_at := now }, st2)

/-- `DatabaseManager.get_existing_ls_unified_review_ids` (lines 526-533): the
`distinct("_id")` call is wrapped in a bare try/except that turns ANY failure
of the fetch into the empty set. -/
def get_existing_ls_unified_review_ids (fetchOk : Bool)
    (lsStore : List UnifiedReview) : List String :=
  match (if fetchOk then Except.ok (lsStore.map (·._id))
         else Except.error () : Except Unit (List String)) with
  | .ok ids => ids
  | .error _ => []

structure LsState where
  store : List UnifiedReview
  buffer : List UnifiedReview
  attempted : List UnifiedReview
  flushIdx : Nat
  countGoogle : Nat
  countTrustpilot : Nat
  ts : TransState
  deriving DecidableEq

def initLsState (store : List UnifiedReview) : LsState :=
  { store := store, buffer := [], attempted := [], flushIdx := 0
    countGoogle := 0, countTrustpilot := 0, ts := initTransState }

def doFlushLs (wok : Nat → Bool) (s : LsState) : LsState :=
  { s with
    store := if wok s.flushIdx then s.store ++ s.buffer else s.store
    buffer := []
    attempted := s.attempted ++ s.buffer
    flushIdx := s.flushIdx + 1 }

/-- One iteration of the per-review loop of `standardize_reviews_incremental`
(lines 731-780): skip already-standardized ids, dispatch on platform (unknown
platforms are skipped with a warning), buffer, flush at 1000. -/
def lsStep (env : TransEnv) (wok : Nat → Bool) (now : Nat)
    (existing : List String) (s : LsState) (r : UnifiedReview) : LsState :=
  if r._id ∈ existing then s
  else if r.platform = "google" then
    let p := _standardize_google_review_ls env now s.ts r
    let s := { s with buffer := s.buffer ++ [p.1], ts := p.2
                      countGoogle := s.countGoogle + 1 }
    if 1000 ≤ s.buffer.length then doFlushLs wok s else s
  else if r.platform = "trustpilot" then
    let p := _standardize_trustpilot_review_ls env now s.ts r
    let s := { s with buffer := s.buffer ++ [p.1], ts := p.2
                      countTrustpilot := s.countTrustpilot + 1 }
    if 1000 ≤ s.buffer.length then doFlushLs wok s else s
  else s

/-- The per-batch flush of lines 784-791 (`if reviews_to_insert:` after each
cursor batch of 500). -/
def lsBatchFlush (wok : Nat → Bool) (s : LsState) : LsState :=
  if s.buffer = [] then s else doFlushLs wok s

/-- Fuel-driven batcher worker: structurally recursive on the fuel so that it
evaluates inside the kernel.  With `fuel ≥ l.length` the fuel never runs out
(`chunkFuel_congr`). -/
def chunkFuel (n : Nat) : Nat → List α → List (List α)
  | _, [] => []
  | 0, l => [l]
  | f + 1, x :: xs => (x :: xs.take (n - 1)) :: chunkFuel n f (xs.drop (n - 1))

/-- Splitting a list into cursor batches of `n` (source uses
`skip/limit` pagination with `batch_size = 500`). -/
def chunkList (n : Nat) (l : List α) : List (List α) := chunkFuel n l.length l

def lsProcessChunks (env : TransEnv) (wok : Nat → Bool) (now : Nat)
    (existing : List String) (s : LsState)
    (chunks : List (List UnifiedReview)) : LsState :=
  chunks.foldl (fun s c => lsBatchFlush wok (c.foldl (lsStep env wok now existing) s)) s

/-- `DatabaseManager.standardize_reviews_incremental` (effective definition,
lines 663-840): fetch the existing ids (a failed fetch silently becomes the
empty set), process the unified reviews in cursor batches of 500 flushing
after each batch, and flush any final remainder (lines 805-810).
(`_count_translations_needed` only reads and logs; it is omitted.) -/
def standardize_reviews_incremental (env : TransEnv) (wok : Nat → Bool)
    (now : Nat) (fetchOk : Bool) (lsStore : List UnifiedReview)
    (input : List UnifiedReview) : LsState :=
  let existing := get_existing_ls_unified_review_ids fetchOk lsStore
  let s := lsProcessChunks env wok now existing (initLsState lsStore)
    (chunkList 500 input)
  if s.buffer = [] then s else doFlushLs wok s

/-- A user interruption after `k` processed unified reviews: completed cursor
batches have had their per-batch flush; the partially processed batch has
not; the KeyboardInterrupt handler of lines 793-802 then flushes the pending
buffer before re-raising. -/
def lsInterrupted (env : TransEnv) (wok : Nat → Bool) (now : Nat)
    (fetchOk : Bool) (lsStore : List UnifiedReview)
    (input : List UnifiedReview) (k : Nat) : LsState :=
  let existing := get_existing_ls_unified_review_ids fetchOk lsStore
  let kc := 500 * (k / 500)
  let s := lsProcessChunks env wok now existing (initLsState lsStore)
    (chunkList 500 (input.take kc))
  let s := ((input.take k).drop kc).foldl (lsStep env wok now existing) s
  if s.buffer = [] then s else doFlushLs wok s

/-! ### LLM attribute extraction (review_enrichment_processor.py)

The Gemini response, after `_call_gemini_batch`'s JSON decoding (including
the markdown stripping and the regex brace-extraction fallback), is an
arbitrary decoded mapping from review-id strings to values; the validators
only ever inspect two levels of it, so values are modelled two levels deep.
A failed or over-budget call yields the empty mapping. -/

inductive PVal where
  | vint (n : Int)
  | vstr (s : String)
  | vother
  deriving DecidableEq

inductive PAttrs where
  | aint (n : Int)
  | adict (kvs : List (String × PVal))
  | aother
  deriving DecidableEq

/-- The inner loop shared by both validators: keep `(name, value)` iff the
name is expected and the value is an `int` within `[lo, hi]`; drop (and log)
everything else. -/
def validAttrsIn (expected : List String) (lo hi : Int)
    (kvs : List (String × PVal)) : List (String × Int) :=
  kvs.filterMap fun q =>
    match q.2 with
    | .vint n => if q.1 ∈ expected ∧ lo ≤ n ∧ n ≤ hi then some (q.1, n) else none
    | _ => none

/-- `ReviewEnrichmentProcessor._validate_sentiment_response` (lines 374-397):
per review keep only expected attribute names with integer values in `[0,3]`;
a review with no surviving values contributes no entry. -/
def _validate_sentiment_response (resp : List (String × PAttrs))
    (expected : List String) : List (String × List (String × Int)) :=
  resp.filterMap fun p =>
    match p.2 with
    | .adict kvs =>
        let va := validAttrsIn expected 0 3 kvs
        if va = [] then none else some (p.1, va)
    | _ => none

/-- `ReviewEnrichmentProcessor._validate_binary_response` (lines 399-426):
like the sentiment validator with range `[0,1]`; a bare integer value is the
`is_complaint` shorthand and is kept only when `is_complaint` is expected. -/
def _validate_binary_response (resp : List (String × PAttrs))
    (expected : List String) : List (String × List (String × Int)) :=
  resp.filterMap fun p =>
    match p.2 with
    | .aint n =>
        if "is_complaint" ∈ expected ∧ 0 ≤ n ∧ n ≤ 1 then
          some (p.1, [("is_complaint", n)])
        else none
    | .adict kvs =>
        let va := validAttrsIn expected 0 1 kvs
        if va = [] then none else some (p.1, va)
    | .aother => none

/-! ### The enrichment run (review_enrichment_processor.py lines 428-687)

An `enriched_reviews` document is modelled as an association list from field
name to integer value with first-match lookup (string-valued metadata fields
— establishment id, platform, dates — are copied from the review on every
upsert and read by no claim; they are omitted).  `$set`-with-upsert prepends
the updated fields, so earlier (newer) pairs shadow older ones. -/

abbrev EDoc := List (String × Int)

abbrev EStore := List (String × EDoc)

abbrev EData := List (String × List (String × Int))

/-- Shared update shape of both the in-memory merge
(`enrichment_data[review_id].update(attr_data)`, a Python dict update) and
the store `$set` upsert: newer pairs override older ones, a missing entry is
created. -/
def upsertEntry : List (String × List (String × Int)) → String →
    List (String × Int) → List (String × List (String × Int))
  | [], rid, attrs => [(rid, attrs)]
  | p :: rest, rid, attrs =>
      if p.1 = rid then (p.1, attrs ++ p.2) :: rest
      else p :: upsertEntry rest rid attrs

def mergeData (d : EData) (new : List (String × List (String × Int))) : EData :=
  new.foldl (fun acc p => upsertEntry acc p.1 p.2) d

/-- The nine default sentiment attribute names
(`_create_default_config`, enrichment_config.yaml). -/
def sentimentAttributeNames : List String :=
  ["staff_satisfaction", "scheduling", "treatment_satisfaction",
   "onsite_communication", "facility", "post_op", "affordability",
   "recommendation", "accommodation_transportation"]

/-- The two default response-quality attribute names. -/
def responseAttributeNames : List String :=
  ["has_constructive_response", "has_no_threat"]

/-- The environment of decoded model responses: one entry per external
batched call.  The decoded mapping may mention ANY review-id strings — the
pipeline never checks them against the prompted batch. -/
structure EnrichEnv where
  sentimentResp : List String → List UnifiedReview → List (String × PAttrs)
  complaintResp : List UnifiedReview → List (String × PAttrs)
  responseResp : List UnifiedReview → List (String × PAttrs)

/-- `_get_review_content_length` (lines 225-232). -/
def _get_review_content_length (r : UnifiedReview) : Nat :=
  (pyStrip ((if truthyS r.title then r.title.getD "" else "") ++
    (if truthyS r.review_text then " " ++ r.review_text.getD "" else ""))).length

/-- `_calculate_basic_fields` (lines 234-242). -/
def _calculate_basic_fields (r : UnifiedReview) : List (String × Int) :=
  [("has_response", if truthyS r.response_from_owner_text then 1 else 0),
   ("review_length", (_get_review_content_length r : Int))]

/-- `_process_sentiment_attributes` (lines 428-451) for one attribute batch:
review batches of `batch_size = 30`, validate, merge. -/
def _process_sentiment_attributes (env : EnrichEnv)
    (reviews : List UnifiedReview) (attrNames : List String) : EData :=
  (chunkList 30 reviews).foldl
    (fun d batch =>
      mergeData d (_validate_sentiment_response (env.sentimentResp attrNames batch) attrNames))
    []

/-- `_process_complaint_attribute` (lines 453-476). -/
def _process_complaint_attribute (env : EnrichEnv)
    (reviews : List UnifiedReview) : EData :=
  (chunkList 30 reviews).foldl
    (fun d batch =>
      mergeData d (_validate_binary_response (env.complaintResp batch) ["is_complaint"]))
    []

/-- `existing_enrichment.get('is_complaint', 0) if existing_enrichment else 0`
(lines 485-486): the stored complaint flag of a review, defaulting to 0 when
the document or the field is missing. -/
def storedIsComplaint (store : EStore) (rid : String) : Int :=
  (((store.lookup rid).bind (fun d => List.lookup "is_complaint" d)).getD 0)

/-- `_process_response_attributes` (lines 478-516): filter to reviews with an
owner response whose ALREADY-STORED complaint flag is 1, then batch, call,
validate (against the response attribute names) and merge.  Note the model's
reply ids are taken at face value. -/
def _process_response_attributes (env : EnrichEnv) (store : EStore)
    (reviews : List UnifiedReview) : EData :=
  let eligible := reviews.filter fun r =>
    truthyS r.response_from_owner_text ∧ storedIsComplaint store r._id = 1
  if eligible = [] then []
  else
    (chunkList 30 eligible).foldl
      (fun d batch =>
        mergeData d (_validate_binary_response (env.responseResp batch) responseAttributeNames))
      []

/-- `_upsert_enriched_reviews` (lines 518-564): nothing at all is written when
the merged enrichment data is empty; otherwise EVERY review in the processed
list gets a `$set` upsert of its basic fields plus whatever the enrichment
data holds for its id (the enrichment values override the basic fields on a
name clash, per `dict.update` order). -/
def _upsert_enriched_reviews (data : EData) (reviews : List UnifiedReview)
    (store : EStore) : EStore :=
  if data = [] then store
  else
    reviews.foldl
      (fun st r =>
        upsertEntry st r._id (((data.lookup r._id).getD []) ++ _calculate_basic_fields r))
      store

structure EnrichGroups where
  sentiment : Bool
  complaint : Bool
  response : Bool
  deriving DecidableEq

/-- `ReviewEnrichmentProcessor.process_reviews` (lines 566-687) on an
already-fetched review list, with the default configuration (all attributes
enabled, `batch_size = 30`, `sentiment_batch_size = 3`): sentiment attribute
batches of 3, then complaint classification, a mid-run upsert, then response
attributes (whose eligibility reads the store just written), and a final
upsert of the whole accumulated enrichment data. -/
def process_reviews (env : EnrichEnv) (groups : EnrichGroups)
    (reviews : List UnifiedReview) (store : EStore) : EStore :=
  let data1 :=
    if groups.sentiment then
      (chunkList 3 sentimentAttributeNames).foldl
        (fun d names => mergeData d (_process_sentiment_attributes env reviews names))
        []
    else []
  let data2 :=
    if groups.complaint then mergeData data1 (_process_complaint_attribute env reviews)
    else data1
  let store1 := _upsert_enriched_reviews data2 reviews store
  let data3 :=
    if groups.response then mergeData data2 (_process_response_attributes env store1 reviews)
    else data2
  _upsert_enriched_reviews data3 reviews store1

/-! ### Scoring engine (clinic_scoring_system.py)

Python floats are idealised as `ℚ`; `round(x, n)` is Python's round-half-even
(banker's rounding) at `n` decimal digits. -/

/-- Round to the nearest integer, ties to the even integer (Python `round`). -/
def roundHalfEven (q : ℚ) : ℤ :=
  let f := ⌊q⌋
  let r := q - (f : ℚ)
  if r < 1 / 2 then f
  else if 1 / 2 < r then f + 1
  else if f % 2 = 0 then f else f + 1

/-- Python `round(q, n)`. -/
def pyRound (q : ℚ) (n : Nat) : ℚ :=
  (roundHalfEven (q * (10 : ℚ) ^ n) : ℚ) / (10 : ℚ) ^ n

/-- `self.PRIOR_WEIGHT = 100`. -/
def PRIOR_WEIGHT : ℚ := 100

/-- `ClinicScoringSystem._calculate_adjusted_rating` (lines 97-110):
Bayesian-shrunk mean, rounded to 3 decimals; `None` for an empty list. -/
def _calculate_adjusted_rating (ratings : List ℚ) (prior_avg : ℚ) : Option ℚ :=
  if ratings = [] then none
  else
    let review_count : ℚ := ratings.length
    let clinic_avg := ratings.sum / review_count
    some (pyRound
      ((PRIOR_WEIGHT * prior_avg + review_count * clinic_avg) /
        (PRIOR_WEIGHT + review_count)) 3)

/-- `ClinicScoringSystem._calculate_online_communication_score` (lines
112-128), reading the three binary inputs from an enriched document with
`.get(key, 0)` defaults. -/
def _calculate_online_communication_score (d : EDoc) : Int :=
  let is_complaint := (List.lookup "is_complaint" d).getD 0
  let has_response := (List.lookup "has_response" d).getD 0
  let has_constructive_response :=
    (List.lookup "has_constructive_response" d).getD 0
  if is_complaint ≠ 1 then 0
  else if is_complaint = 1 ∧ has_response = 0 then 1
  else if is_complaint = 1 ∧ has_response = 1 ∧ has_constructive_response = 1 then 3
  else if is_complaint = 1 ∧ has_response = 1 then 2
  else 0

/-- `ClinicScoringSystem._calculate_composite_score` (lines 145-161): iterate
the weight table, accumulate `score · weight` and the weight for attributes
whose score is present, `None` when the accumulated weight is zero, else the
renormalized weighted average rounded to 2 decimals. -/
def _calculate_composite_score (individual_scores : List (String × ℚ))
    (weights : List (String × ℚ)) : Option ℚ :=
  let acc := weights.foldl
    (fun (a : ℚ × ℚ) w =>
      match individual_scores.lookup w.1 with
      | some s => (a.1 + s * w.2, a.2 + w.2)
      | none => a)
    (0, 0)
  if acc.2 = 0 then none else some (pyRound (acc.1 / acc.2) 2)

/-- Specification-style reading of the same computation: the weight-table
entries whose attribute has a defined score. -/
def definedWeights (individual_scores : List (String × ℚ))
    (weights : List (String × ℚ)) : List (String × ℚ) :=
  weights.filter fun w => (individual_scores.lookup w.1).isSome

/-- Specification-style weighted sum over the defined attributes. -/
def specWeightedSum (individual_scores : List (String × ℚ))
    (weights : List (String × ℚ)) : ℚ :=
  ((definedWeights individual_scores weights).map
    (fun w => (individual_scores.lookup w.1).getD 0 * w.2)).sum

/-- Specification-style total weight of the defined attributes. -/
def specTotalWeight (individual_scores : List (String × ℚ))
    (weights : List (String × ℚ)) : ℚ :=
  ((definedWeights individual_scores weights).map (·.2)).sum

/-! ### Auxiliary views and concrete fixtures used by the theorems below -/

/-- The ids held durably or in the pending buffer of a unification run. -/
def stateIds (s : UnifyState) : List String :=
  s.store.map (·._id) ++ s.buffer.map (·._id)

/-- The ids held durably or in the pending buffer of a standardization run. -/
def lsIds (s : LsState) : List String :=
  s.store.map (·._id) ++ s.buffer.map (·._id)

/-- A translation environment whose detector and translator always fail
(models a fully offline run). -/
def transEnvNoop : TransEnv :=
  { detect := fun _ => none
    translateCall := fun _ _ => none
    md5hex := fun s => s }

/-- A concrete unified google review without an owner response. -/
def uSample : UnifiedReview :=
  { _id := "64aa00000000000000000001"
    original_review_id := none
    establishment_id := some "est1"
    platform := "google"
    author_name := none
    author_id := none
    author_review_count := none
    is_local_guide := none
    rating := some 4
    title := none
    review_text := some "nice"
    review_text_translated := none
    review_date := some "2024"
    published_at := none
    published_at_date := some "2024"
    verified_purchase := none
    helpful_votes := none
    response_from_owner_date := none
    response_from_owner_text := none
    review_language := some "en"
    country_code := none
    response_from_owner_language := none
    created_at := 0
    updated_at := 0 }

/-- An enriched document carrying neither response-quality flag. -/
def flagFree (d : EDoc) : Prop :=
  List.lookup "has_constructive_response" d = none ∧
  List.lookup "has_no_threat" d = none

/-- Every attribute key of every entry of the enrichment data lies in `ks`. -/
def dataKeysSub (ks : List String) (d : EData) : Prop :=
  ∀ p ∈ d, ∀ a ∈ p.2, a.1 ∈ ks

/-- The attribute keys the sentiment and complaint phases can produce. -/
def enrichKeys : List String := sentimentAttributeNames ++ ["is_complaint"]

/-- A concrete unified google review with an owner response. -/
def uRespSample : UnifiedReview :=
  { uSample with _id := "64aa00000000000000000002"
                 response_from_owner_text := some "we care" }

/-- An enrichment environment whose response-phase reply mentions a review id
that was never in the prompted batch (a hallucinated id). -/
def enrichEnvCex : EnrichEnv :=
  { sentimentResp := fun _ _ => []
    complaintResp := fun _ =>
      [("64aa00000000000000000001", .aint 0), ("64aa00000000000000000002", .aint 1)]
    responseResp := fun _ =>
      [("64aa00000000000000000001", .adict [("has_constructive_response", .vint 1)]),
       ("64aa00000000000000000002", .adict [("has_constructive_response", .vint 1)])] }

/-- An enrichment environment whose response-phase replies only ever name ids
from the prompted batch (an id-faithful model). -/
def enrichEnvOK : EnrichEnv :=
  { sentimentResp := fun _ _ => []
    complaintResp := fun batch => batch.map (fun r => (r._id, PAttrs.aint 1))
    responseResp := fun batch => batch.map (fun r =>
      (r._id, PAttrs.adict [("has_constructive_response", PVal.vint 1),
                            ("has_no_threat", PVal.vint 1)])) }

/-- A concrete raw google review carrying a present, non-empty source-native
review identifier. -/
def gRawSample : GoogleRaw :=
  { _id := "665f0a1b2c3d4e5f60718293"
    review_id := some "ChdDSUhNMG9nS0VJQ0FnSUNSdGRpYThBRRAB"
    establishment_id := some "est1"
    name := some "Jane"
    reviewerId := some "1090"
    isLocalGuide := some false
    rating := some 5
    stars := none
    text := some "Great place"
    textTranslated := none
    publishedAtDate := some "2024-05-01"
    publishAt := none
    likesCount := some 0
    responseFromOwnerDate := none
    responseFromOwnerText := none
    language := some "en" }

/-- A concrete translation environment for the C10 witness. -/
def transEnvW : TransEnv :=
  { detect := fun _ => none
    translateCall := fun _ s => some (s ++ " in English")
    md5hex := fun s => s }

/-! ## Theorems -/

/-- C7: the derived online-communication score follows the fixed decision
table over the three binary inputs read from the enriched document:
no complaint → 0; complaint without response → 1; complaint with a
constructive response → 3; complaint with a non-constructive response → 2. -/
theorem online_communication_decision_table (d : EDoc) :
    ((List.lookup "is_complaint" d).getD 0 ≠ 1 →
      _calculate_online_communication_score d = 0) ∧
    ((List.lookup "is_complaint" d).getD 0 = 1 →
      (List.lookup "has_response" d).getD 0 = 0 →
      _calculate_online_communication_score d = 1) ∧
    ((List.lookup "is_complaint" d).getD 0 = 1 →
      (List.lookup "has_response" d).getD 0 = 1 →
      (List.lookup "has_constructive_response" d).getD 0 = 1 →
      _calculate_online_communication_score d = 3) ∧
    ((List.lookup "is_complaint" d).getD 0 = 1 →
      (List.lookup "has_response" d).getD 0 = 1 →
      (List.lookup "has_constructive_response" d).getD 0 ≠ 1 →
      _calculate_online_communication_score d = 2) := by
  unfold _calculate_online_communication_score
  refine ⟨fun h1 => ?_, fun h1 h2 => ?_, fun h1 h2 h3 => ?_, fun h1 h2 h3 => ?_⟩
  · simp [h1]
  · simp [h1, h2]
  · simp [h1, h2, h3]
  · simp [h1, h2, h3]

/-- Witness for C7 at a concrete enriched document (complaint, response,
constructive response → 3). -/
theorem online_communication_decision_table_witness :
    _calculate_online_communication_score
      [("is_complaint", 1), ("has_response", 1), ("has_constructive_response", 1)] = 3 :=
  (online_communication_decision_table
    [("is_complaint", 1), ("has_response", 1), ("has_constructive_response", 1)]).2.2.1
    (by decide) (by decide) (by decide)

/-- The accumulator of `_calculate_composite_score` computes exactly the
specification-style sums over the defined attributes. -/
theorem composite_foldl_eq (scores : List (String × ℚ)) :
    ∀ (weights : List (String × ℚ)) (a : ℚ × ℚ),
      weights.foldl
        (fun (a : ℚ × ℚ) w =>
          match scores.lookup w.1 with
          | some s => (a.1 + s * w.2, a.2 + w.2)
          | none => a) a =
      (a.1 + specWeightedSum scores weights, a.2 + specTotalWeight scores weights) := by
  intro weights
  induction weights with
  | nil => intro a; simp [specWeightedSum, specTotalWeight, definedWeights]
  | cons w ws ih =>
      intro a
      rcases h : scores.lookup w.1 with _ | s <;>
        simp only [List.foldl_cons, h, ih, specWeightedSum, specTotalWeight,
          definedWeights, List.filter_cons, Option.isSome] <;>
        simp [h, List.filter, add_assoc]

/-- C8: the composite score is the weighted average over only those attributes
whose score is defined, renormalized by the sum of their weights (rounded to
two decimals as in the source); it is `None` when no weighted attribute has a
defined score; and on the spec's example (weights a:0.3, b:0.2, c:0.3, d:0.2
with only a=60, b=80 defined) it equals 68. -/
theorem composite_score_renormalizes (scores weights : List (String × ℚ)) :
    ((∀ w ∈ weights, scores.lookup w.1 = none) →
      _calculate_composite_score scores weights = none) ∧
    (specTotalWeight scores weights ≠ 0 →
      _calculate_composite_score scores weights =
        some (pyRound (specWeightedSum scores weights / specTotalWeight scores weights) 2)) ∧
    (_calculate_composite_score [("a", 60), ("b", 80)]
        [("a", 3/10), ("b", 2/10), ("c", 3/10), ("d", 2/10)] = some 68) := by
  refine ⟨fun hnone => ?_, fun htw => ?_, ?_⟩
  · have hdw : definedWeights scores weights = [] := by
      apply List.filter_eq_nil_iff.mpr
      intro w hw
      simp [hnone w hw]
    unfold _calculate_composite_score
    rw [composite_foldl_eq]
    simp [specTotalWeight, specWeightedSum, hdw]
  · unfold _calculate_composite_score
    rw [composite_foldl_eq]
    simp [htw]
  · simp [_calculate_composite_score, List.lookup, pyRound, roundHalfEven]
    norm_num

/-- Witness for C8 at a concrete score map and weight table. -/
theorem composite_score_renormalizes_witness :
    specTotalWeight [("x", (50 : ℚ))] [("x", (1 : ℚ)/2), ("y", 1/2)] ≠ 0 ∧
    _calculate_composite_score [("x", (50 : ℚ))] [("x", (1 : ℚ)/2), ("y", 1/2)] =
      some (pyRound (specWeightedSum [("x", (50 : ℚ))] [("x", (1 : ℚ)/2), ("y", 1/2)] /
        specTotalWeight [("x", (50 : ℚ))] [("x", (1 : ℚ)/2), ("y", 1/2)]) 2) :=
  ⟨by simp [specTotalWeight, definedWeights, List.lookup],
    (composite_score_renormalizes [("x", (50 : ℚ))] [("x", (1 : ℚ)/2), ("y", 1/2)]).2.1
      (by simp [specTotalWeight, definedWeights, List.lookup])⟩

theorem roundHalfEven_ge_floor (q : ℚ) : ⌊q⌋ ≤ roundHalfEven q := by
  simp only [roundHalfEven]
  split_ifs <;> omega

theorem roundHalfEven_le_floor_add_one (q : ℚ) : roundHalfEven q ≤ ⌊q⌋ + 1 := by
  simp only [roundHalfEven]
  split_ifs <;> omega

theorem roundHalfEven_mono {q q' : ℚ} (h : q ≤ q') :
    roundHalfEven q ≤ roundHalfEven q' := by
  rcases lt_or_eq_of_le (Int.floor_mono h) with hf | hf
  · calc roundHalfEven q ≤ ⌊q⌋ + 1 := roundHalfEven_le_floor_add_one q
      _ ≤ ⌊q'⌋ := by omega
      _ ≤ roundHalfEven q' := roundHalfEven_ge_floor q'
  · simp only [roundHalfEven]
    rw [← hf]
    split_ifs <;> first | omega | linarith

theorem abs_roundHalfEven_sub (q : ℚ) : |(roundHalfEven q : ℚ) - q| ≤ 1 / 2 := by
  have hlb : ((⌊q⌋ : ℚ)) ≤ q := Int.floor_le q
  have hub : q < (⌊q⌋ : ℚ) + 1 := Int.lt_floor_add_one q
  simp only [roundHalfEven]
  rw [abs_le]
  split_ifs with h1 h2 h3 <;> constructor <;> push_cast <;> linarith

theorem pyRound_mono {q q' : ℚ} (n : Nat) (h : q ≤ q') :
    pyRound q n ≤ pyRound q' n := by
  unfold pyRound
  have hp : (0 : ℚ) < (10 : ℚ) ^ n := by positivity
  have h2 := roundHalfEven_mono (mul_le_mul_of_nonneg_right h hp.le)
  gcongr

theorem abs_pyRound_sub_le (q : ℚ) (n : Nat) :
    |pyRound q n - q| ≤ 1 / (2 * (10 : ℚ) ^ n) := by
  have hp : (0 : ℚ) < (10 : ℚ) ^ n := by positivity
  have h1 := abs_roundHalfEven_sub (q * (10 : ℚ) ^ n)
  have h2 : pyRound q n - q = ((roundHalfEven (q * (10 : ℚ) ^ n) : ℚ) - q * (10 : ℚ) ^ n) / (10 : ℚ) ^ n := by
    rw [pyRound]
    field_simp
    ring
  rw [h2, abs_div, abs_of_pos hp, div_le_div_iff₀ hp (by positivity)]
  calc |(roundHalfEven (q * (10 : ℚ) ^ n) : ℚ) - q * (10 : ℚ) ^ n| * (2 * (10 : ℚ) ^ n)
      ≤ (1 / 2) * (2 * (10 : ℚ) ^ n) := by
        apply mul_le_mul_of_nonneg_right h1 (by positivity)
    _ = 1 * (10 : ℚ) ^ n := by ring

/-- C9 (amended): for lists of equal length, the adjusted rating is
non-decreasing in the sample mean with the prior fixed; and as the rating
count grows with the sample mean held fixed, the adjusted rating eventually
stays within `1/2000 + ε` of the sample mean — within the 3-decimal output
rounding of the source, not exactly at the mean. -/
theorem adjusted_rating_monotone_near_convergent :
    (∀ (l1 l2 : List ℚ) (p a1 a2 : ℚ), l1.length = l2.length →
      l1.sum / (l1.length : ℚ) ≤ l2.sum / (l2.length : ℚ) →
      _calculate_adjusted_rating l1 p = some a1 →
      _calculate_adjusted_rating l2 p = some a2 → a1 ≤ a2) ∧
    (∀ (m p ε : ℚ), 0 < ε → ∃ N : ℕ, ∀ n, N ≤ n → ∀ (l : List ℚ) (a : ℚ),
      l.length = n → l.sum / (l.length : ℚ) = m →
      _calculate_adjusted_rating l p = some a → |a - m| < 1 / 2000 + ε) := by
  constructor
  · intro l1 l2 p a1 a2 hlen hmean h1 h2
    by_cases hn1 : l1 = []
    · simp [_calculate_adjusted_rating, hn1] at h1
    by_cases hn2 : l2 = []
    · simp [_calculate_adjusted_rating, hn2] at h2
    have hl1 : (0 : ℚ) < l1.length := by
      have := List.length_pos.mpr hn1
      exact_mod_cast this
    simp only [_calculate_adjusted_rating, hn1, hn2, if_false, Option.some_inj,
      PRIOR_WEIGHT] at h1 h2
    subst h1 h2
    apply pyRound_mono
    rw [hlen] at hmean hl1 ⊢
    gcongr
  · intro m p ε hε
    obtain ⟨N, hN⟩ := exists_nat_gt (100 * |p - m| / ε)
    refine ⟨N, fun n hn l a hlen hmean ha => ?_⟩
    by_cases hnil : l = []
    · simp [_calculate_adjusted_rating, hnil] at ha
    simp only [_calculate_adjusted_rating, hnil, if_false, Option.some_inj] at ha
    subst ha
    have hlpos : (0 : ℚ) < l.length := by
      have := List.length_pos.mpr hnil
      exact_mod_cast this
    set x : ℚ := (PRIOR_WEIGHT * p + (l.length : ℚ) * (l.sum / (l.length : ℚ))) /
      (PRIOR_WEIGHT + (l.length : ℚ)) with hx
    have hden : (0 : ℚ) < PRIOR_WEIGHT + (l.length : ℚ) := by
      unfold PRIOR_WEIGHT; positivity
    have hlne : (l.length : ℚ) ≠ 0 := ne_of_gt hlpos
    have hsum : l.sum = (l.length : ℚ) * m := by
      field_simp at hmean
      linarith [hmean]
    have hxm : x - m = (100 * (p - m)) / (PRIOR_WEIGHT + (l.length : ℚ)) := by
      rw [hx]
      unfold PRIOR_WEIGHT
      field_simp
      linear_combination hsum
    have hNle : (N : ℚ) ≤ (l.length : ℚ) := by
      rw [hlen]; exact_mod_cast hn
    have hxbound : |x - m| < ε := by
      rw [hxm, abs_div, abs_of_pos hden, div_lt_iff₀ hden]
      have h100 : |(100 : ℚ) * (p - m)| = 100 * |p - m| := by
        rw [abs_mul]; norm_num
      rw [h100]
      have hεN : 100 * |p - m| < ε * (N : ℚ) := by
        calc 100 * |p - m| = (100 * |p - m| / ε) * ε := by field_simp
          _ < (N : ℚ) * ε := mul_lt_mul_of_pos_right hN hε
          _ = ε * (N : ℚ) := by ring
      have hstep : ε * (N : ℚ) ≤ ε * (l.length : ℚ) :=
        mul_le_mul_of_nonneg_left hNle hε.le
      have hexp : ε * (PRIOR_WEIGHT + (l.length : ℚ)) =
          ε * 100 + ε * (l.length : ℚ) := by
        unfold PRIOR_WEIGHT; ring
      have h100pos : 0 < ε * 100 := by positivity
      linarith [hεN, hstep, hexp, h100pos]
    have hround := abs_pyRound_sub_le x 3
    have h2000 : (1 : ℚ) / (2 * (10 : ℚ) ^ (3 : ℕ)) = 1 / 2000 := by norm_num
    calc |pyRound x 3 - m| = |(pyRound x 3 - x) + (x - m)| := by ring_nf
      _ ≤ |pyRound x 3 - x| + |x - m| := abs_add _ _
      _ < 1 / 2000 + ε := by
          rw [h2000] at hround
          linarith

/-- Witness for C9 at concrete inputs: monotonicity applied to two concrete
rating lists of equal length. -/
theorem adjusted_rating_monotone_near_convergent_witness :
    _calculate_adjusted_rating [2, 4] 4 = some (pyRound ((100 * 4 + 2 * 3) / 102) 3) ∧
    _calculate_adjusted_rating [4, 5] 4 = some (pyRound ((100 * 4 + 2 * (9/2)) / 102) 3) ∧
    pyRound ((100 * 4 + 2 * 3) / 102) 3 ≤ pyRound ((100 * 4 + 2 * (9/2)) / 102) 3 := by
  have e1 : _calculate_adjusted_rating [2, 4] 4 = some (pyRound ((100 * 4 + 2 * 3) / 102) 3) := by
    simp [_calculate_adjusted_rating, PRIOR_WEIGHT]
    norm_num
  have e2 : _calculate_adjusted_rating [4, 5] 4 = some (pyRound ((100 * 4 + 2 * (9/2)) / 102) 3) := by
    simp [_calculate_adjusted_rating, PRIOR_WEIGHT]
    norm_num
  refine ⟨e1, e2, ?_⟩
  exact adjusted_rating_monotone_near_convergent.1 [2, 4] [4, 5] 4 _ _ rfl
    (by norm_num) e1 e2

/-- For every rating count `n ≥ 2199901`, the adjusted rating of `n` ratings
of `1/3` with prior average `4` is exactly `0.333`: the 3-decimal output
rounding freezes strictly away from the sample mean `1/3`. -/
theorem adjusted_rating_freezes (n : ℕ) (hn : 2199901 ≤ n) :
    _calculate_adjusted_rating (List.replicate n (1/3 : ℚ)) 4 = some (333/1000) := by
  have hn0 : n ≠ 0 := by omega
  have hne : List.replicate n (1/3 : ℚ) ≠ [] := by
    intro h
    have := congrArg List.length h
    simp at this
    omega
  have hc : (0 : ℚ) < (n : ℚ) := by exact_mod_cast Nat.pos_of_ne_zero hn0
  have hcn : (2199901 : ℚ) ≤ (n : ℚ) := by exact_mod_cast hn
  simp only [_calculate_adjusted_rating, hne, if_false, List.length_replicate,
    List.sum_replicate, nsmul_eq_mul, PRIOR_WEIGHT]
  congr 1
  have hx : (100 * 4 + (n : ℚ) * ((n : ℚ) * (1/3) / (n : ℚ))) / (100 + (n : ℚ)) =
      (400 + (n : ℚ)/3) / (100 + (n : ℚ)) := by
    field_simp
    ring
  rw [hx]
  have hden : (0 : ℚ) < 100 + (n : ℚ) := by positivity
  have b1 : (333 : ℚ) ≤ ((400 + (n : ℚ)/3) / (100 + (n : ℚ))) * 10 ^ 3 := by
    rw [div_mul_eq_mul_div, le_div_iff₀ hden]
    linarith
  have b2 : ((400 + (n : ℚ)/3) / (100 + (n : ℚ))) * 10 ^ 3 < 333 + 1/2 := by
    rw [div_mul_eq_mul_div, div_lt_iff₀ hden]
    linarith
  have hfloor : ⌊((400 + (n : ℚ)/3) / (100 + (n : ℚ))) * 10 ^ 3⌋ = 333 := by
    rw [Int.floor_eq_iff]
    constructor
    · exact_mod_cast b1
    · push_cast
      linarith
  rw [pyRound]
  simp only [roundHalfEven, hfloor]
  rw [if_pos (by push_cast; linarith)]
  norm_num

/-- C9 counterexample: as the rating count grows with the sample mean held at
`1/3` and the prior average at `4`, the adjusted rating returned by
`_calculate_adjusted_rating` does NOT converge to the sample mean — it is
eventually constantly `0.333`, at distance `1/3000` from `1/3`. -/
theorem adjusted_rating_exact_convergence_cex :
    ¬ (∀ ε : ℚ, 0 < ε → ∃ N : ℕ, ∀ n, N ≤ n → ∀ a : ℚ,
        _calculate_adjusted_rating (List.replicate n ((1 : ℚ)/3)) 4 = some a →
        |a - 1/3| < ε) := by
  intro h
  obtain ⟨N, hN⟩ := h (1/6000) (by norm_num)
  have hfr := adjusted_rating_freezes (max N 2199901) (le_max_right _ _)
  have hlt := hN (max N 2199901) (le_max_left _ _) (333/1000) hfr
  have habs : |(333/1000 : ℚ) - 1/3| = 1/3000 := by
    rw [abs_of_neg (by norm_num)]
    norm_num
  rw [habs] at hlt
  norm_num at hlt

/-- C2 counterexample: a raw record whose source-native unique identifier
(`review_id`) is present and non-empty, yet the canonical identity produced
by the mapper is NOT that identifier — it is the raw document's store `_id`,
unconditionally. -/
theorem canonical_identity_cex :
    gRawSample.review_id = some "ChdDSUhNMG9nS0VJQ0FnSUNSdGRpYThBRRAB" ∧
    "ChdDSUhNMG9nS0VJQ0FnSUNSdGRpYThBRRAB" ≠ "" ∧
    (_standardize_google_review 0 gRawSample)._id ≠
      "ChdDSUhNMG9nS0VJQ0FnSUNSdGRpYThBRRAB" ∧
    (_standardize_google_review 0 gRawSample)._id = gRawSample._id :=
  ⟨rfl, by decide, by decide, rfl⟩

/-- C2 (amended): for both platforms the canonical identity is always the raw
record's store-native document `_id`, copied verbatim; the source-native
review identifier is kept only as the separate `original_review_id`
passthrough field, and no digest fallback exists.  The identity does not
depend on the mapping timestamp, so mapping byte-identical raw input twice
yields the same identity. -/
theorem canonical_identity_is_store_id (now now' : Nat) (g : GoogleRaw)
    (t : TrustpilotRaw) :
    (_standardize_google_review now g)._id = g._id ∧
    (_standardize_trustpilot_review now t)._id = t._id ∧
    (_standardize_google_review now g).original_review_id = g.review_id ∧
    (_standardize_trustpilot_review now t).original_review_id = t.review_id ∧
    (_standardize_google_review now g)._id = (_standardize_google_review now' g)._id ∧
    (_standardize_trustpilot_review now t)._id =
      (_standardize_trustpilot_review now' t)._id :=
  ⟨rfl, rfl, rfl, rfl, rfl, rfl⟩

/-- A cache binding survives one further `_translate_text` call: new cache
entries are only ever prepended under a key that was previously unbound. -/
theorem translate_cache_stable (env : TransEnv) (st : TransState) (t : String)
    {k v : String} (h : st.cache.lookup k = some v) :
    ((_translate_text env st t).2).cache.lookup k = some v := by
  unfold _translate_text
  by_cases he : pyStrip t = ""
  · simpa [he] using h
  · simp only [he, if_false]
    cases hc : st.cache.lookup (env.md5hex t) with
    | some cached => simpa [hc] using h
    | none =>
        cases ht : env.translateCall st.calls t with
        | some raw =>
            have hk : (k == env.md5hex t) = false := by
              rw [beq_eq_false_iff_ne]
              intro he2
              rw [he2, hc] at h
              cases h
            simpa [hc, ht, List.lookup, hk] using h
        | none => simpa [hc, ht] using h

/-- A cache binding survives any further sequence of `_translate_text`
calls within the run. -/
theorem translate_cache_stable_run (env : TransEnv) (pending : List String) :
    ∀ (st : TransState) {k v : String}, st.cache.lookup k = some v →
    (runTranslations env st pending).cache.lookup k = some v := by
  induction pending with
  | nil => intro st k v h; exact h
  | cons t ts ih =>
      intro st k v h
      exact ih _ (translate_cache_stable env st t h)

/-- When the cached text is looked up again, the call is pure: it returns the
cached value and leaves the state (including the external-call counter)
untouched. -/
theorem translate_cache_hit (env : TransEnv) (st : TransState) (t v : String)
    (hne : pyStrip t ≠ "") (hv : st.cache.lookup (env.md5hex t) = some v) :
    _translate_text env st t = (v, st) := by
  unfold _translate_text
  simp [hne, hv]

/-- C10: within a run, once a first `_translate_text` call on a non-empty
text has performed an external translation that succeeded, any later call on
the same text — after arbitrary intervening translations — returns exactly
the first call's result and leaves the state unchanged (no further external
translator call), regardless of what the external translator would now
return. -/
theorem translate_text_served_from_cache (env : TransEnv) (st0 : TransState)
    (t r : String) (pending : List String)
    (hne : pyStrip t ≠ "")
    (hmiss : st0.cache.lookup (env.md5hex t) = none)
    (hsucc : env.translateCall st0.calls t = some r) :
    _translate_text env (runTranslations env (_translate_text env st0 t).2 pending) t =
      ((_translate_text env st0 t).1,
       runTranslations env (_translate_text env st0 t).2 pending) := by
  have hfirst : _translate_text env st0 t =
      (pyStrip r, { st0 with counter := st0.counter + 1
                             cache := (env.md5hex t, pyStrip r) :: st0.cache
                             calls := st0.calls + 1 }) := by
    unfold _translate_text
    simp [hne, hmiss, hsucc]
  have hcache1 : ((_translate_text env st0 t).2).cache.lookup (env.md5hex t) =
      some (pyStrip r) := by
    rw [hfirst]
    simp [List.lookup]
  have hcache2 := translate_cache_stable_run env pending _ hcache1
  rw [translate_cache_hit env _ t (pyStrip r) hne hcache2, hfirst]

/-- Witness for C10 at a concrete environment, text and intervening call. -/
theorem translate_text_served_from_cache_witness :
    _translate_text transEnvW
        (runTranslations transEnvW (_translate_text transEnvW initTransState "hola mundo").2
          ["guten tag"]) "hola mundo" =
      ((_translate_text transEnvW initTransState "hola mundo").1,
       runTranslations transEnvW (_translate_text transEnvW initTransState "hola mundo").2
          ["guten tag"]) :=
  translate_text_served_from_cache transEnvW initTransState "hola mundo"
    "hola mundo in English" ["guten tag"] (by decide) rfl rfl

/-- Soundness of the shared inner validation loop: every surviving pair has
an expected name, an in-range integer value, and appears verbatim (never
clamped) in the raw attribute map. -/
theorem validAttrsIn_sound (expected : List String) (lo hi : Int)
    (kvs : List (String × PVal)) :
    ∀ an ∈ validAttrsIn expected lo hi kvs,
      an.1 ∈ expected ∧ lo ≤ an.2 ∧ an.2 ≤ hi ∧ (an.1, PVal.vint an.2) ∈ kvs := by
  intro an han
  unfold validAttrsIn at han
  rw [List.mem_filterMap] at han
  obtain ⟨⟨a, v⟩, hmem, hf⟩ := han
  cases v with
  | vint n =>
      simp only [] at hf
      split_ifs at hf with hcond
      cases hf
      exact ⟨hcond.1, hcond.2.1, hcond.2.2, hmem⟩
  | vstr s => cases hf
  | vother => cases hf

/-- C5: validation drops — never clamps, never keeps — every value failing
its family's check.  A surviving sentiment value is an integer in `[0,3]`
under a known attribute name, copied verbatim from the response; a surviving
binary value is an integer in `[0,1]` under a known name (or the bare-integer
`is_complaint` shorthand); a review whose values are all dropped contributes
no entry; concretely, a sentiment value `5`, a string value `"high"` and an
unknown attribute name are all dropped, as are an out-of-range binary dict
value and an out-of-range bare complaint integer. -/
theorem validation_drops_invalid_values :
    (∀ (resp : List (String × PAttrs)) (expected : List String) (rid : String)
        (va : List (String × Int)), (rid, va) ∈ _validate_sentiment_response resp expected →
        va ≠ [] ∧ ∃ kvs, (rid, PAttrs.adict kvs) ∈ resp ∧
          ∀ an ∈ va, an.1 ∈ expected ∧ 0 ≤ an.2 ∧ an.2 ≤ 3 ∧
            (an.1, PVal.vint an.2) ∈ kvs) ∧
    (∀ (resp : List (String × PAttrs)) (expected : List String) (rid : String)
        (va : List (String × Int)), (rid, va) ∈ _validate_binary_response resp expected →
        va ≠ [] ∧
        ((∃ n : Int, (rid, PAttrs.aint n) ∈ resp ∧ va = [("is_complaint", n)] ∧
            "is_complaint" ∈ expected ∧ 0 ≤ n ∧ n ≤ 1) ∨
         (∃ kvs, (rid, PAttrs.adict kvs) ∈ resp ∧
            ∀ an ∈ va, an.1 ∈ expected ∧ 0 ≤ an.2 ∧ an.2 ≤ 1 ∧
              (an.1, PVal.vint an.2) ∈ kvs))) ∧
    (_validate_sentiment_response
        [("r1", .adict [("staff_satisfaction", .vint 5), ("facility", .vstr "high"),
                        ("unknown_attr", .vint 2)])]
        ["staff_satisfaction", "facility"] = []) ∧
    (_validate_binary_response
        [("r1", .adict [("is_complaint", .vint 2)]), ("r2", .aint 7)]
        ["is_complaint"] = []) := by
  refine ⟨?_, ?_, by decide, by decide⟩
  · intro resp expected rid va hmem
    unfold _validate_sentiment_response at hmem
    rw [List.mem_filterMap] at hmem
    obtain ⟨⟨rid', attrs⟩, hresp, hf⟩ := hmem
    cases attrs with
    | adict kvs =>
        simp only [] at hf
        split_ifs at hf with hnil
        cases hf
        exact ⟨hnil, kvs, hresp, validAttrsIn_sound expected 0 3 kvs⟩
    | aint n => cases hf
    | aother => cases hf
  · intro resp expected rid va hmem
    unfold _validate_binary_response at hmem
    rw [List.mem_filterMap] at hmem
    obtain ⟨⟨rid', attrs⟩, hresp, hf⟩ := hmem
    cases attrs with
    | aint n =>
        simp only [] at hf
        split_ifs at hf with hcond
        cases hf
        exact ⟨by simp, Or.inl ⟨n, hresp, rfl, hcond.1, hcond.2.1, hcond.2.2⟩⟩
    | adict kvs =>
        simp only [] at hf
        split_ifs at hf with hnil
        cases hf
        exact ⟨hnil, Or.inr ⟨kvs, hresp, validAttrsIn_sound expected 0 1 kvs⟩⟩
    | aother => cases hf

/-- Witness for C5: the soundness half applied to a concrete response with
one valid sentiment value. -/
theorem validation_drops_invalid_values_witness :
    [("facility", (3 : Int))] ≠ [] ∧
    ∃ kvs, ("r9", PAttrs.adict kvs) ∈
        [("r9", PAttrs.adict [("facility", PVal.vint 3), ("facility_x", PVal.vint 9)])] ∧
      ∀ an ∈ [("facility", (3 : Int))], an.1 ∈ ["facility"] ∧ 0 ≤ an.2 ∧ an.2 ≤ 3 ∧
        (an.1, PVal.vint an.2) ∈ kvs :=
  validation_drops_invalid_values.1
    [("r9", PAttrs.adict [("facility", PVal.vint 3), ("facility_x", PVal.vint 9)])]
    ["facility"] "r9" [("facility", (3 : Int))] (by decide)

theorem standardizeRaw_id (now : Nat) (r : RawReview) :
    (standardizeRaw now r)._id = rawId r := by
  cases r <;> rfl

theorem stateIds_doFlush (wok : Nat → Bool) (hok : ∀ i, wok i = true)
    (s : UnifyState) : stateIds (doFlush wok s) = stateIds s := by
  simp [stateIds, doFlush, hok s.flushIdx]

/-- With succeeding writes, `unifyStep` never loses an id. -/
theorem mem_stateIds_unifyStep (now : Nat) (wok : Nat → Bool)
    (hok : ∀ i, wok i = true) (ex : List String) (s : UnifyState)
    (r : RawReview) {x : String} (h : x ∈ stateIds s) :
    x ∈ stateIds (unifyStep now wok ex s r) := by
  unfold unifyStep
  split
  · exact h
  · cases r <;> dsimp only <;> split <;>
      first
      | (rw [stateIds_doFlush wok hok]
         simp only [stateIds, List.map_append, List.mem_append] at h ⊢
         tauto)
      | (simp only [stateIds, List.map_append, List.mem_append] at h ⊢
         tauto)

/-- With succeeding writes, after `unifyStep` processes a record whose id was
either already covered or newly buffered, the record's id is present. -/
theorem rawId_mem_stateIds_unifyStep (now : Nat) (wok : Nat → Bool)
    (hok : ∀ i, wok i = true) (ex : List String) (s : UnifyState)
    (r : RawReview) (hex : ∀ y ∈ ex, y ∈ stateIds s) :
    rawId r ∈ stateIds (unifyStep now wok ex s r) := by
  unfold unifyStep
  split
  · next hin => exact hex _ hin
  · cases r <;> dsimp only <;> split <;>
      first
      | (rw [stateIds_doFlush wok hok]
         simp [stateIds, rawId, _standardize_google_review, _standardize_trustpilot_review])
      | simp [stateIds, rawId, _standardize_google_review, _standardize_trustpilot_review]

theorem mem_stateIds_processUnify (now : Nat) (wok : Nat → Bool)
    (hok : ∀ i, wok i = true) (ex : List String) (input : List RawReview) :
    ∀ (s : UnifyState) {x : String}, x ∈ stateIds s →
      x ∈ stateIds (processUnify now wok ex s input) := by
  induction input with
  | nil => intro s x h; exact h
  | cons r rs ih =>
      intro s x h
      exact ih _ (mem_stateIds_unifyStep now wok hok ex s r h)

theorem cover_processUnify (now : Nat) (wok : Nat → Bool)
    (hok : ∀ i, wok i = true) (ex : List String) (input : List RawReview) :
    ∀ (s : UnifyState), (∀ y ∈ ex, y ∈ stateIds s) →
      ∀ r ∈ input, rawId r ∈ stateIds (processUnify now wok ex s input) := by
  induction input with
  | nil => intro s _ r hr; cases hr
  | cons r0 rs ih =>
      intro s hex r hr
      have hex' : ∀ y ∈ ex, y ∈ stateIds (unifyStep now wok ex s r0) :=
        fun y hy => mem_stateIds_unifyStep now wok hok ex s r0 (hex y hy)
      rcases List.mem_cons.mp hr with h | h
      · subst h
        exact mem_stateIds_processUnify now wok hok ex rs _
          (rawId_mem_stateIds_unifyStep now wok hok ex s r hex)
      · exact ih _ hex' r h

theorem processUnify_skips (now : Nat) (wok : Nat → Bool) (ex : List String)
    (input : List RawReview) (h : ∀ r ∈ input, rawId r ∈ ex) :
    ∀ s : UnifyState, processUnify now wok ex s input = s := by
  induction input with
  | nil => intro s; rfl
  | cons r rs ih =>
      intro s
      have hstep : unifyStep now wok ex s r = s := by
        unfold unifyStep
        rw [if_pos (h r (List.mem_cons_self r rs))]
      calc processUnify now wok ex s (r :: rs)
          = processUnify now wok ex (unifyStep now wok ex s r) rs := rfl
        _ = s := by rw [hstep]; exact ih (fun r' hr' => h r' (List.mem_cons_of_mem r hr')) s

/-- With succeeding writes, every id reached during processing survives into
the store after the end-of-stream flush. -/
theorem unify_final_ids (now : Nat) (wok : Nat → Bool)
    (hok : ∀ i, wok i = true) (store : List UnifiedReview)
    (input : List RawReview) {x : String}
    (h : x ∈ stateIds (processUnify now wok (store.map (·._id))
      (initUnifyState store) input)) :
    x ∈ (unify_reviews_incremental now wok true store input).1.store.map (·._id) := by
  unfold unify_reviews_incremental get_existing_unified_review_ids
  simp only [if_true]
  split
  · next hbuf =>
      simpa [stateIds, hbuf] using h
  · simp only [doFlush, hok]
    simpa [stateIds] using h

/-- When every incoming raw id is already unified, the run is a no-op: the
skip check rejects everything, the insert list stays empty, and no write
happens. -/
theorem unify_all_existing (now : Nat) (wok : Nat → Bool)
    (store : List UnifiedReview) (input : List RawReview)
    (h : ∀ r ∈ input, rawId r ∈ store.map (·._id)) :
    unify_reviews_incremental now wok true store input = (initUnifyState store, false) := by
  unfold unify_reviews_incremental get_existing_unified_review_ids
  simp only [if_true]
  rw [processUnify_skips now wok _ input h (initUnifyState store)]
  rfl

/-- C1: running `unify_reviews_incremental` a second time on the same raw
input, after a first run all of whose batch writes succeeded, leaves the
unified store unchanged and unifies zero records of either platform — every
raw id is found in the existing-id set and skipped, so the second run's
insert list is empty and it performs no write at all. -/
theorem unify_rerun_is_noop (now1 now2 : Nat) (wok1 wok2 : Nat → Bool)
    (store0 : List UnifiedReview) (input : List RawReview)
    (hok1 : ∀ i, wok1 i = true) :
    unify_reviews_incremental now2 wok2 true
        (unify_reviews_incremental now1 wok1 true store0 input).1.store input =
      (initUnifyState (unify_reviews_incremental now1 wok1 true store0 input).1.store,
       false) := by
  apply unify_all_existing
  intro r hr
  apply unify_final_ids now1 wok1 hok1 store0 input
  apply cover_processUnify now1 wok1 hok1 _ input _ _ r hr
  intro y hy
  simpa [stateIds, initUnifyState] using hy

/-- Witness for C1 at a concrete raw input and a first run from an empty
store whose writes all succeed. -/
theorem unify_rerun_is_noop_witness :
    unify_reviews_incremental 7 (fun _ => false) true
        (unify_reviews_incremental 3 (fun _ => true) true []
          [RawReview.google gRawSample]).1.store
        [RawReview.google gRawSample] =
      (initUnifyState
        (unify_reviews_incremental 3 (fun _ => true) true []
          [RawReview.google gRawSample]).1.store, false) :=
  unify_rerun_is_noop 3 7 (fun _ => true) (fun _ => false) []
    [RawReview.google gRawSample] (fun _ => rfl)

theorem ls_google_id (env : TransEnv) (now : Nat) (st : TransState)
    (r : UnifiedReview) :
    (_standardize_google_review_ls env now st r).1._id = r._id := by
  unfold _standardize_google_review_ls
  dsimp only
  generalize _detect_language env r.response_from_owner_text = lang
  cases r.response_from_owner_text <;> cases lang <;> dsimp only <;>
    first
    | (split_ifs <;> rfl)
    | rfl

theorem ls_trustpilot_id (env : TransEnv) (now : Nat) (st : TransState)
    (r : UnifiedReview) :
    (_standardize_trustpilot_review_ls env now st r).1._id = r._id := by
  unfold _standardize_trustpilot_review_ls
  dsimp only
  generalize _detect_language env r.response_from_owner_text = lang
  cases r.response_from_owner_text <;> cases lang <;> dsimp only <;>
    first
    | (split_ifs <;> rfl)
    | rfl

theorem lsIds_doFlushLs (wok : Nat → Bool) (hok : ∀ i, wok i = true)
    (s : LsState) : lsIds (doFlushLs wok s) = lsIds s := by
  simp [lsIds, doFlushLs, hok s.flushIdx]

theorem lsIds_lsBatchFlush (wok : Nat → Bool) (hok : ∀ i, wok i = true)
    (s : LsState) : lsIds (lsBatchFlush wok s) = lsIds s := by
  unfold lsBatchFlush
  split
  · rfl
  · exact lsIds_doFlushLs wok hok s

theorem mem_lsIds_lsStep (env : TransEnv) (wok : Nat → Bool)
    (hok : ∀ i, wok i = true) (now : Nat) (ex : List String) (s : LsState)
    (r : UnifiedReview) {x : String} (h : x ∈ lsIds s) :
    x ∈ lsIds (lsStep env wok now ex s r) := by
  unfold lsStep
  split
  · exact h
  split
  · dsimp only
    split
    · rw [lsIds_doFlushLs wok hok]
      simp only [lsIds, List.map_append, List.mem_append] at h ⊢
      tauto
    · simp only [lsIds, List.map_append, List.mem_append] at h ⊢
      tauto
  split
  · dsimp only
    split
    · rw [lsIds_doFlushLs wok hok]
      simp only [lsIds, List.map_append, List.mem_append] at h ⊢
      tauto
    · simp only [lsIds, List.map_append, List.mem_append] at h ⊢
      tauto
  · exact h

theorem id_mem_lsIds_lsStep (env : TransEnv) (wok : Nat → Bool)
    (hok : ∀ i, wok i = true) (now : Nat) (ex : List String) (s : LsState)
    (r : UnifiedReview) (hex : ∀ y ∈ ex, y ∈ lsIds s)
    (hplat : r.platform = "google" ∨ r.platform = "trustpilot") :
    r._id ∈ lsIds (lsStep env wok now ex s r) := by
  unfold lsStep
  split
  · next hin => exact hex _ hin
  split
  · dsimp only
    split
    · rw [lsIds_doFlushLs wok hok]
      simp [lsIds, ls_google_id]
    · simp [lsIds, ls_google_id]
  split
  · dsimp only
    split
    · rw [lsIds_doFlushLs wok hok]
      simp [lsIds, ls_trustpilot_id]
    · simp [lsIds, ls_trustpilot_id]
  · next hng hnt =>
      rcases hplat with h | h
      · exact absurd h hng
      · exact absurd h hnt

theorem mem_lsIds_fold (env : TransEnv) (wok : Nat → Bool)
    (hok : ∀ i, wok i = true) (now : Nat) (ex : List String)
    (c : List UnifiedReview) :
    ∀ (s : LsState) {x : String}, x ∈ lsIds s →
      x ∈ lsIds (c.foldl (lsStep env wok now ex) s) := by
  induction c with
  | nil => intro s x h; exact h
  | cons r rs ih =>
      intro s x h
      exact ih _ (mem_lsIds_lsStep env wok hok now ex s r h)

theorem cover_lsIds_fold (env : TransEnv) (wok : Nat → Bool)
    (hok : ∀ i, wok i = true) (now : Nat) (ex : List String)
    (c : List UnifiedReview) :
    ∀ (s : LsState), (∀ y ∈ ex, y ∈ lsIds s) →
      ∀ r ∈ c, (r.platform = "google" ∨ r.platform = "trustpilot") →
        r._id ∈ lsIds (c.foldl (lsStep env wok now ex) s) := by
  induction c with
  | nil => intro s _ r hr; cases hr
  | cons r0 rs ih =>
      intro s hex r hr hplat
      have hex' : ∀ y ∈ ex, y ∈ lsIds (lsStep env wok now ex s r0) :=
        fun y hy => mem_lsIds_lsStep env wok hok now ex s r0 (hex y hy)
      rcases List.mem_cons.mp hr with h | h
      · subst h
        exact mem_lsIds_fold env wok hok now ex rs _
          (id_mem_lsIds_lsStep env wok hok now ex s r hex hplat)
      · exact ih _ hex' r h hplat

theorem mem_lsIds_chunks (env : TransEnv) (wok : Nat → Bool)
    (hok : ∀ i, wok i = true) (now : Nat) (ex : List String)
    (chunks : List (List UnifiedReview)) :
    ∀ (s : LsState) {x : String}, x ∈ lsIds s →
      x ∈ lsIds (lsProcessChunks env wok now ex s chunks) := by
  induction chunks with
  | nil => intro s x h; exact h
  | cons c cs ih =>
      intro s x h
      apply ih
      rw [lsIds_lsBatchFlush wok hok]
      exact mem_lsIds_fold env wok hok now ex c s h

theorem cover_lsIds_chunks (env : TransEnv) (wok : Nat → Bool)
    (hok : ∀ i, wok i = true) (now : Nat) (ex : List String)
    (chunks : List (List UnifiedReview)) :
    ∀ (s : LsState), (∀ y ∈ ex, y ∈ lsIds s) →
      ∀ c ∈ chunks, ∀ r ∈ c, (r.platform = "google" ∨ r.platform = "trustpilot") →
        r._id ∈ lsIds (lsProcessChunks env wok now ex s chunks) := by
  induction chunks with
  | nil => intro s _ c hc; cases hc
  | cons c0 cs ih =>
      intro s hex c hc r hr hplat
      have hnext : ∀ y ∈ ex, y ∈ lsIds (lsBatchFlush wok (c0.foldl (lsStep env wok now ex) s)) := by
        intro y hy
        rw [lsIds_lsBatchFlush wok hok]
        exact mem_lsIds_fold env wok hok now ex c0 s (hex y hy)
      rcases List.mem_cons.mp hc with h | h
      · subst h
        apply mem_lsIds_chunks env wok hok now ex cs
        rw [lsIds_lsBatchFlush wok hok]
        exact cover_lsIds_fold env wok hok now ex c s hex r hr hplat
      · exact ih _ hnext c h r hr hplat

theorem chunkFuel_join (n : Nat) :
    ∀ (f : Nat) (l : List α), l.length ≤ f → (chunkFuel n f l).join = l := by
  intro f
  induction f with
  | zero =>
      intro l hl
      have : l = [] := List.length_eq_zero.mp (Nat.le_zero.mp hl)
      subst this
      rfl
  | succ f ih =>
      intro l hl
      cases l with
      | nil => rfl
      | cons x xs =>
          have hdrop : (xs.drop (n - 1)).length ≤ f := by
            simp only [List.length_drop]
            simp only [List.length_cons] at hl
            omega
          simp only [chunkFuel, List.join_cons, ih _ hdrop]
          rw [List.cons_append, List.take_append_drop]

theorem chunkList_join (n : Nat) : ∀ l : List α, (chunkList n l).join = l :=
  fun l => chunkFuel_join n l.length l (le_refl _)

/-- With succeeding writes, any id reached by a standardization run survives
the closing (end-of-stream or interrupt-handler) flush into the store. -/
theorem mem_store_final_ls (wok : Nat → Bool) (hok : ∀ i, wok i = true)
    (s : LsState) {x : String} (h : x ∈ lsIds s) :
    x ∈ (if s.buffer = [] then s else doFlushLs wok s).store.map (·._id) := by
  split
  · next hbuf => simpa [lsIds, hbuf] using h
  · simp only [doFlushLs, hok]
    simpa [lsIds] using h

/-- C4 counterexample: the unification stage does NOT flush its remaining
buffer on user interruption.  Interrupting after 1 processed record leaves
the store empty although the processed document sits unflushed in the buffer
— the very document the uninterrupted run persists. -/
theorem unify_interrupt_loses_buffer_cex :
    (unifyInterrupted 0 (fun _ => true) [] [RawReview.google gRawSample] 1).store = [] ∧
    (unifyInterrupted 0 (fun _ => true) [] [RawReview.google gRawSample] 1).buffer ≠ [] ∧
    (unify_reviews_incremental 0 (fun _ => true) true []
      [RawReview.google gRawSample]).1.store ≠ [] :=
  ⟨by decide, by decide, by decide⟩

/-- C4 (amended): the standardization stage flushes its buffer both at
end-of-stream and on user interruption (its KeyboardInterrupt handler), so
with succeeding writes an interrupted run keeps every document processed
before the interrupt; the unification stage flushes its remaining buffer only
at end-of-stream — every processed record survives an uninterrupted run, but
on interruption its unflushed buffer (up to the batch size) is lost. -/
theorem flush_on_interrupt_ls_but_not_unify :
    (∀ (env : TransEnv) (wok : Nat → Bool) (now : Nat)
        (lsStore input : List UnifiedReview) (k : Nat),
      (∀ i, wok i = true) →
      ∀ r ∈ input.take k, (r.platform = "google" ∨ r.platform = "trustpilot") →
        r._id ∈ (lsInterrupted env wok now true lsStore input k).store.map (·._id)) ∧
    (∀ (now : Nat) (wok : Nat → Bool) (store : List UnifiedReview)
        (input : List RawReview),
      (∀ i, wok i = true) →
      ∀ r ∈ input,
        rawId r ∈ (unify_reviews_incremental now wok true store input).1.store.map (·._id)) := by
  constructor
  · intro env wok now lsStore input k hok r hr hplat
    have hex0 : ∀ y ∈ get_existing_ls_unified_review_ids true lsStore,
        y ∈ lsIds (initLsState lsStore) := by
      intro y hy
      simpa [lsIds, initLsState, get_existing_ls_unified_review_ids] using hy
    unfold lsInterrupted
    dsimp only
    apply mem_store_final_ls wok hok
    have hkc : 500 * (k / 500) ≤ k := by
      calc 500 * (k / 500) = k / 500 * 500 := by ring
        _ ≤ k := Nat.div_mul_le_self k 500
    have htt : (input.take k).take (500 * (k / 500)) = input.take (500 * (k / 500)) := by
      rw [List.take_take, min_eq_left hkc]
    have hsplit := List.take_append_drop (500 * (k / 500)) (input.take k)
    rw [htt] at hsplit
    rw [← hsplit] at hr
    rcases List.mem_append.mp hr with hr1 | hr2
    · apply mem_lsIds_fold env wok hok now _ _ _
      have hrj : r ∈ (chunkList 500 (input.take (500 * (k / 500)))).join := by
        rw [chunkList_join]
        exact hr1
      obtain ⟨c, hc, hrc⟩ := List.mem_join.mp hrj
      exact cover_lsIds_chunks env wok hok now _ _ _ hex0 c hc r hrc hplat
    · apply cover_lsIds_fold env wok hok now _ _ _ ?_ r hr2 hplat
      intro y hy
      exact mem_lsIds_chunks env wok hok now _ _ _ (hex0 y hy)
  · intro now wok store input hok r hr
    apply unify_final_ids now wok hok store input
    apply cover_processUnify now wok hok _ input _ _ r hr
    intro y hy
    simpa [stateIds, initUnifyState] using hy

/-- Witness for C4 (amended) at a concrete interrupted standardization run. -/
theorem flush_on_interrupt_ls_witness :
    uSample._id ∈
      (lsInterrupted transEnvNoop (fun _ => true) 0 true [] [uSample] 1).store.map (·._id) :=
  flush_on_interrupt_ls_but_not_unify.1 transEnvNoop (fun _ => true) 0 [] [uSample] 1
    (fun _ => rfl) uSample (by decide) (Or.inl rfl)

/-- C3 counterexample: when the existing-identity fetch of the
standardization stage fails, the stage does NOT fail fast — the bare
`except` turns the failure into an empty dedup set and the run proceeds to
write: here it re-standardizes and re-inserts a review whose id is already
present in the target store. -/
theorem ls_failed_fetch_still_writes_cex :
    uSample._id ∈ [uSample].map (·._id) ∧
    (standardize_reviews_incremental transEnvNoop (fun _ => true) 0 false
      [uSample] [uSample]).attempted ≠ [] :=
  ⟨by decide, by decide⟩

/-- C3 (amended): the unification stage fails fast on a failed
existing-identity fetch — the exception propagates before any processing, so
the run aborts with an untouched store, empty counters and no attempted
write; the standardization stage instead swallows the failure into an empty
dedup set and proceeds: any single incoming review of a known platform is
standardized and passed to an insert, even if its id is already stored. -/
theorem failed_fetch_unify_aborts_ls_proceeds :
    (∀ (now : Nat) (wok : Nat → Bool) (store : List UnifiedReview)
        (input : List RawReview),
      unify_reviews_incremental now wok false store input = (initUnifyState store, true)) ∧
    (∀ (env : TransEnv) (wok : Nat → Bool) (now : Nat)
        (lsStore : List UnifiedReview) (r : UnifiedReview),
      (r.platform = "google" ∨ r.platform = "trustpilot") →
      (standardize_reviews_incremental env wok now false lsStore [r]).attempted ≠ []) := by
  constructor
  · intro now wok store input
    rfl
  · intro env wok now lsStore r hplat
    unfold standardize_reviews_incremental get_existing_ls_unified_review_ids
    have hchunk : chunkList 500 [r] = [[r]] := by
      rw [chunkList]
      rfl
    rw [hchunk]
    rcases hplat with h | h <;>
      simp [lsProcessChunks, lsStep, lsBatchFlush, doFlushLs, initLsState, h]

/-- Witness for C3 (amended) at a concrete review and environment. -/
theorem failed_fetch_ls_proceeds_witness :
    (standardize_reviews_incremental transEnvNoop (fun _ => true) 0 false []
      [uSample]).attempted ≠ [] :=
  failed_fetch_unify_aborts_ls_proceeds.2 transEnvNoop (fun _ => true) 0 [] uSample
    (Or.inl rfl)

/-- C6 counterexample: within one enrichment run from an empty store, the
model's response-phase reply names a review that was never prompted (it has
no owner response and is stored with `is_complaint = 0`); the validators
check attribute names and ranges but never the reply ids, so the final
upsert attaches `has_constructive_response = 1` to a document carrying
`has_response = 0` and `is_complaint = 0`. -/
theorem enrichment_flag_invariant_cex :
    ((process_reviews enrichEnvCex ⟨false, true, true⟩ [uSample, uRespSample] []).lookup
      "64aa00000000000000000001").bind (List.lookup "has_constructive_response") = some 1 ∧
    ((process_reviews enrichEnvCex ⟨false, true, true⟩ [uSample, uRespSample] []).lookup
      "64aa00000000000000000001").bind (List.lookup "has_response") = some 0 ∧
    ((process_reviews enrichEnvCex ⟨false, true, true⟩ [uSample, uRespSample] []).lookup
      "64aa00000000000000000001").bind (List.lookup "is_complaint") = some 0 :=
  ⟨by decide, by decide, by decide⟩

theorem lookup_append (l1 l2 : List (String × β)) (k : String) :
    (l1 ++ l2).lookup k =
      match l1.lookup k with
      | some v => some v
      | none => l2.lookup k := by
  induction l1 with
  | nil => rfl
  | cons p l ih =>
      obtain ⟨a, b⟩ := p
      cases hbeq : (k == a) <;> simp [List.lookup, hbeq, ih]

theorem lookup_mem {l : List (String × β)} {k : String} {v : β}
    (h : l.lookup k = some v) : (k, v) ∈ l := by
  induction l with
  | nil => cases h
  | cons p l ih =>
      obtain ⟨a, b⟩ := p
      cases hbeq : (k == a) with
      | true =>
          rw [List.lookup, hbeq] at h
          cases h
          exact (beq_iff_eq.mp hbeq) ▸ List.mem_cons_self _ _
      | false =>
          rw [List.lookup, hbeq] at h
          exact List.mem_cons_of_mem _ (ih h)

theorem lookup_eq_none {l : List (String × β)} {k : String}
    (h : ∀ p ∈ l, p.1 ≠ k) : l.lookup k = none := by
  induction l with
  | nil => rfl
  | cons p l ih =>
      obtain ⟨a, b⟩ := p
      have ha : a ≠ k := h (a, b) (List.mem_cons_self _ _)
      have hbeq : (k == a) = false := by
        rw [beq_eq_false_iff_ne]
        exact fun he => ha he.symm
      rw [List.lookup, hbeq]
      exact ih fun p hp => h p (List.mem_cons_of_mem _ hp)

theorem lookup_upsertEntry_self (d : List (String × List (String × Int)))
    (rid : String) (attrs : List (String × Int)) :
    (upsertEntry d rid attrs).lookup rid = some (attrs ++ (d.lookup rid).getD []) := by
  induction d with
  | nil => simp [upsertEntry, List.lookup]
  | cons p rest ih =>
      by_cases hp : p.1 = rid
      · obtain ⟨a, b⟩ := p
        subst hp
        simp [upsertEntry, List.lookup]
      · obtain ⟨a, b⟩ := p
        have hbeq : (rid == a) = false := by
          rw [beq_eq_false_iff_ne]
          exact fun he => hp he.symm
        simp only [upsertEntry, if_neg hp]
        rw [List.lookup, hbeq, List.lookup, hbeq]
        exact ih

theorem lookup_upsertEntry_other (d : List (String × List (String × Int)))
    (rid k : String) (attrs : List (String × Int)) (hne : k ≠ rid) :
    (upsertEntry d rid attrs).lookup k = d.lookup k := by
  induction d with
  | nil =>
      have hbeq : (k == rid) = false := by
        rw [beq_eq_false_iff_ne]; exact hne
      simp [upsertEntry, List.lookup, hbeq]
  | cons p rest ih =>
      obtain ⟨a, b⟩ := p
      by_cases hp : a = rid
      · subst hp
        have hbeq : (k == a) = false := by
          rw [beq_eq_false_iff_ne]; exact hne
        simp [upsertEntry, List.lookup, hbeq]
      · simp only [upsertEntry, if_neg hp]
        cases hbeq : (k == a) <;> rw [List.lookup, hbeq, List.lookup, hbeq]
        exact ih

theorem mem_upsertEntry (d : List (String × List (String × Int)))
    (rid : String) (attrs : List (String × Int)) :
    ∀ p ∈ upsertEntry d rid attrs, ∀ a ∈ p.2,
      (∃ q ∈ d, q.1 = p.1 ∧ a ∈ q.2) ∨ (p.1 = rid ∧ a ∈ attrs) := by
  induction d with
  | nil =>
      intro p hp a ha
      rw [upsertEntry] at hp
      rcases List.mem_singleton.mp hp with rfl
      exact Or.inr ⟨rfl, ha⟩
  | cons q rest ih =>
      intro p hp a ha
      rw [upsertEntry] at hp
      split at hp
      · next hq =>
          rcases List.mem_cons.mp hp with rfl | hmem
          · rcases List.mem_append.mp ha with h1 | h2
            · exact Or.inr ⟨hq.symm ▸ rfl, h1⟩
            · exact Or.inl ⟨q, List.mem_cons_self _ _, rfl, h2⟩
          · exact Or.inl ⟨p, List.mem_cons_of_mem _ hmem, rfl, ha⟩
      · rcases List.mem_cons.mp hp with rfl | hmem
        · exact Or.inl ⟨p, List.mem_cons_self _ _, rfl, ha⟩
        · rcases ih p hmem a ha with ⟨q', hq', he, ha'⟩ | hr
          · exact Or.inl ⟨q', List.mem_cons_of_mem _ hq', he, ha'⟩
          · exact Or.inr hr

theorem rid_mem_upsertEntry (d : List (String × List (String × Int)))
    (rid : String) (attrs : List (String × Int)) :
    ∀ p ∈ upsertEntry d rid attrs, p.1 ∈ d.map (·.1) ∨ p.1 = rid := by
  induction d with
  | nil =>
      intro p hp
      rcases List.mem_singleton.mp hp with rfl
      exact Or.inr rfl
  | cons q rest ih =>
      intro p hp
      rw [upsertEntry] at hp
      split at hp
      · rcases List.mem_cons.mp hp with rfl | hmem
        · rw [List.map_cons]
          exact Or.inl (List.mem_cons_self _ _)
        · rw [List.map_cons]
          exact Or.inl (List.mem_cons_of_mem _ (List.mem_map_of_mem _ hmem))
      · rcases List.mem_cons.mp hp with rfl | hmem
        · rw [List.map_cons]
          exact Or.inl (List.mem_cons_self _ _)
        · rcases ih p hmem with h | h
          · rw [List.map_cons]
            exact Or.inl (List.mem_cons_of_mem _ h)
          · exact Or.inr h

theorem mergeData_origin (d new : EData) :
    ∀ p ∈ mergeData d new, ∀ a ∈ p.2,
      (∃ q ∈ d, q.1 = p.1 ∧ a ∈ q.2) ∨ (∃ q ∈ new, q.1 = p.1 ∧ a ∈ q.2) := by
  induction new generalizing d with
  | nil => intro p hp a ha; exact Or.inl ⟨p, hp, rfl, ha⟩
  | cons q0 rest ih =>
      intro p hp a ha
      have hp' : p ∈ mergeData (upsertEntry d q0.1 q0.2) rest := hp
      rcases ih _ p hp' a ha with ⟨q, hq, he, ha'⟩ | ⟨q, hq, he, ha'⟩
      · rcases mem_upsertEntry d q0.1 q0.2 q hq a ha' with ⟨q', hq', he', ha''⟩ | ⟨hq1, ha''⟩
        · exact Or.inl ⟨q', hq', he'.trans he, ha''⟩
        · exact Or.inr ⟨q0, List.mem_cons_self _ _, hq1.symm.trans he, ha''⟩
      · exact Or.inr ⟨q, List.mem_cons_of_mem _ hq, he, ha'⟩

theorem mergeData_rids (d new : EData) :
    ∀ p ∈ mergeData d new, p.1 ∈ d.map (·.1) ∨ p.1 ∈ new.map (·.1) := by
  induction new generalizing d with
  | nil => intro p hp; exact Or.inl (List.mem_map_of_mem _ hp)
  | cons q0 rest ih =>
      intro p hp
      have hp' : p ∈ mergeData (upsertEntry d q0.1 q0.2) rest := hp
      rcases ih _ p hp' with h | h
      · rw [List.mem_map] at h
        obtain ⟨q, hq, he⟩ := h
        rcases rid_mem_upsertEntry d q0.1 q0.2 q hq with h2 | h2
        · exact Or.inl (he ▸ h2)
        · right
          rw [List.map_cons]
          exact he ▸ h2 ▸ List.mem_cons_self _ _
      · right
        rw [List.map_cons]
        exact List.mem_cons_of_mem _ h

/-- Merging data whose attribute keys all differ from `k` does not change the
`k`-lookup of any entry's attributes. -/
theorem mergeData_lookup_key_preserved (new : EData) (k : String)
    (hk : ∀ q ∈ new, ∀ a ∈ q.2, a.1 ≠ k) :
    ∀ (d : EData) (rid : String),
      (((mergeData d new).lookup rid).getD []).lookup k =
        ((d.lookup rid).getD []).lookup k := by
  induction new with
  | nil => intro d rid; rfl
  | cons q0 rest ih =>
      intro d rid
      have hstep : (((mergeData (upsertEntry d q0.1 q0.2) rest).lookup rid).getD []).lookup k =
          (((upsertEntry d q0.1 q0.2).lookup rid).getD []).lookup k :=
        ih (fun q hq => hk q (List.mem_cons_of_mem _ hq)) _ rid
      have hgoal : ((mergeData d (q0 :: rest)).lookup rid) =
          ((mergeData (upsertEntry d q0.1 q0.2) rest).lookup rid) := rfl
      rw [hgoal, hstep]
      by_cases he : rid = q0.1
      · subst he
        rw [lookup_upsertEntry_self]
        simp only [Option.getD_some]
        rw [lookup_append]
        rw [lookup_eq_none fun a ha => hk q0 (List.mem_cons_self _ _) a ha]
      · rw [lookup_upsertEntry_other _ _ _ _ he]

theorem validate_sentiment_keys (resp : List (String × PAttrs)) (expected : List String) :
    ∀ p ∈ _validate_sentiment_response resp expected, ∀ a ∈ p.2, a.1 ∈ expected := by
  intro p hp a ha
  unfold _validate_sentiment_response at hp
  rw [List.mem_filterMap] at hp
  obtain ⟨⟨rid, attrs⟩, hmem, hf⟩ := hp
  cases attrs with
  | adict kvs =>
      simp only [] at hf
      split_ifs at hf with hnil
      cases hf
      exact (validAttrsIn_sound expected 0 3 kvs a ha).1
  | aint n => cases hf
  | aother => cases hf

theorem validate_binary_keys (resp : List (String × PAttrs)) (expected : List String) :
    ∀ p ∈ _validate_binary_response resp expected, ∀ a ∈ p.2, a.1 ∈ expected := by
  intro p hp a ha
  unfold _validate_binary_response at hp
  rw [List.mem_filterMap] at hp
  obtain ⟨⟨rid, attrs⟩, hmem, hf⟩ := hp
  cases attrs with
  | aint n =>
      simp only [] at hf
      split_ifs at hf with hcond
      cases hf
      rcases List.mem_singleton.mp ha with rfl
      exact hcond.1
  | adict kvs =>
      simp only [] at hf
      split_ifs at hf with hnil
      cases hf
      exact (validAttrsIn_sound expected 0 1 kvs a ha).1
  | aother => cases hf

theorem validate_binary_rids (resp : List (String × PAttrs)) (expected : List String) :
    ∀ p ∈ _validate_binary_response resp expected, p.1 ∈ resp.map (·.1) := by
  intro p hp
  unfold _validate_binary_response at hp
  rw [List.mem_filterMap] at hp
  obtain ⟨⟨rid, attrs⟩, hmem, hf⟩ := hp
  cases attrs with
  | aint n =>
      simp only [] at hf
      split_ifs at hf
      cases hf
      exact List.mem_map_of_mem _ hmem
  | adict kvs =>
      simp only [] at hf
      split_ifs at hf
      cases hf
      exact List.mem_map_of_mem _ hmem
  | aother => cases hf

theorem dataKeysSub_mergeData {ks : List String} {d new : EData}
    (hd : dataKeysSub ks d) (hnew : ∀ q ∈ new, ∀ a ∈ q.2, a.1 ∈ ks) :
    dataKeysSub ks (mergeData d new) := by
  intro p hp a ha
  rcases mergeData_origin d new p hp a ha with ⟨q, hq, _, ha'⟩ | ⟨q, hq, _, ha'⟩
  · exact hd q hq a ha'
  · exact hnew q hq a ha'

theorem foldl_mergeData_keys {ks : List String} {β : Type} (f : β → EData) :
    ∀ (l : List β), (∀ b ∈ l, ∀ q ∈ f b, ∀ a ∈ q.2, a.1 ∈ ks) →
      ∀ d0 : EData, dataKeysSub ks d0 →
        dataKeysSub ks (l.foldl (fun d b => mergeData d (f b)) d0) := by
  intro l
  induction l with
  | nil => intro _ d0 h; exact h
  | cons c cs ih =>
      intro hf d0 h
      exact ih (fun b hb => hf b (List.mem_cons_of_mem _ hb)) _
        (dataKeysSub_mergeData h (hf c (List.mem_cons_self _ _)))

theorem mergeData_ridsP {R : String → Prop} {d new : EData}
    (hd : ∀ p ∈ d, R p.1) (hn : ∀ q ∈ new, R q.1) :
    ∀ p ∈ mergeData d new, R p.1 := by
  intro p hp
  rcases mergeData_rids d new p hp with h | h
  · obtain ⟨q, hq, he⟩ := List.mem_map.mp h
    exact he ▸ hd q hq
  · obtain ⟨q, hq, he⟩ := List.mem_map.mp h
    exact he ▸ hn q hq

theorem foldl_mergeData_ridsP {R : String → Prop} {β : Type} (f : β → EData) :
    ∀ (l : List β), (∀ b ∈ l, ∀ q ∈ f b, R q.1) →
      ∀ d0 : EData, (∀ p ∈ d0, R p.1) →
        ∀ p ∈ l.foldl (fun d b => mergeData d (f b)) d0, R p.1 := by
  intro l
  induction l with
  | nil => intro _ d0 h; exact h
  | cons c cs ih =>
      intro hf d0 h
      exact ih (fun b hb => hf b (List.mem_cons_of_mem _ hb)) _
        (mergeData_ridsP h (hf c (List.mem_cons_self _ _)))

/-- Every key of every entry produced by the response-attribute phase is one
of the two response attribute names. -/
theorem response_keys (env : EnrichEnv) (store : EStore)
    (reviews : List UnifiedReview) :
    dataKeysSub responseAttributeNames (_process_response_attributes env store reviews) := by
  unfold _process_response_attributes
  dsimp only
  split
  · intro p hp; cases hp
  · exact foldl_mergeData_keys _ _
      (fun b _ => validate_binary_keys (env.responseResp b) responseAttributeNames)
      [] (fun p hp => absurd hp (List.not_mem_nil p))

/-- Every review id named by the response-attribute phase data is the id of
an eligible (filtered and prompted) review, provided the model's replies only
name prompted ids. -/
theorem response_rids (env : EnrichEnv) (store : EStore)
    (reviews : List UnifiedReview)
    (hfaith : ∀ batch, ∀ q ∈ env.responseResp batch, q.1 ∈ batch.map (·._id)) :
    ∀ p ∈ _process_response_attributes env store reviews,
      p.1 ∈ (reviews.filter fun r =>
        truthyS r.response_from_owner_text ∧ storedIsComplaint store r._id = 1).map (·._id) := by
  unfold _process_response_attributes
  dsimp only
  set elig := reviews.filter (fun r =>
    truthyS r.response_from_owner_text ∧ storedIsComplaint store r._id = 1) with helig
  split
  · intro p hp; cases hp
  · refine @foldl_mergeData_ridsP (fun x => x ∈ elig.map (·._id)) (List UnifiedReview)
      (fun batch => _validate_binary_response (env.responseResp batch) responseAttributeNames)
      (chunkList 30 elig) ?_ [] (fun p hp => absurd hp (List.not_mem_nil p))
    intro b hb q hq
    obtain ⟨q0, hq0, he⟩ := List.mem_map.mp
      (validate_binary_rids (env.responseResp b) responseAttributeNames q hq)
    have hbatch : q0.1 ∈ b.map (·._id) := hfaith b q0 hq0
    obtain ⟨r0, hr0, he0⟩ := List.mem_map.mp hbatch
    have hrel : r0 ∈ elig := by
      have hj := chunkList_join 30 elig
      rw [← hj]
      exact List.mem_join.mpr ⟨b, hb, hr0⟩
    exact he ▸ he0 ▸ List.mem_map_of_mem _ hrel

theorem fold_upsert_lookup_untouched (f : UnifiedReview → EDoc) :
    ∀ (reviews : List UnifiedReview) (store : EStore) (k : String),
      k ∉ reviews.map (·._id) →
      (reviews.foldl (fun st r => upsertEntry st r._id (f r)) store).lookup k =
        store.lookup k := by
  intro reviews
  induction reviews with
  | nil => intro store k _; rfl
  | cons r rest ih =>
      intro store k hk
      rw [List.map_cons, List.mem_cons] at hk
      push_neg at hk
      have : (rest.foldl (fun st r => upsertEntry st r._id (f r))
          (upsertEntry store r._id (f r))).lookup k =
          (upsertEntry store r._id (f r)).lookup k := ih _ k hk.2
      rw [List.foldl_cons, this, lookup_upsertEntry_other _ _ _ _ hk.1]

theorem fold_upsert_lookup_mem (f : UnifiedReview → EDoc) :
    ∀ (reviews : List UnifiedReview) (store : EStore),
      (reviews.map (·._id)).Nodup → ∀ r ∈ reviews,
      (reviews.foldl (fun st r => upsertEntry st r._id (f r)) store).lookup r._id =
        some (f r ++ (store.lookup r._id).getD []) := by
  intro reviews
  induction reviews with
  | nil => intro store _ r hr; cases hr
  | cons r0 rest ih =>
      intro store hnodup r hr
      rw [List.map_cons, List.nodup_cons] at hnodup
      obtain ⟨h0, hrest⟩ := hnodup
      rcases List.mem_cons.mp hr with rfl | hmem
      · rw [List.foldl_cons,
          fold_upsert_lookup_untouched f rest (upsertEntry store r._id (f r)) r._id h0]
        exact lookup_upsertEntry_self store r._id (f r)
      · have hne : r._id ≠ r0._id := by
          intro he
          exact h0 (he ▸ List.mem_map_of_mem _ hmem)
        rw [List.foldl_cons, ih _ hrest r hmem,
          lookup_upsertEntry_other store r0._id r._id (f r0) hne]

theorem fold_upsert_key_none (k : String) (f : UnifiedReview → EDoc)
    (hf : ∀ r, (f r).lookup k = none) :
    ∀ (reviews : List UnifiedReview) (store : EStore),
      (∀ rid d, store.lookup rid = some d → d.lookup k = none) →
      ∀ rid d, (reviews.foldl (fun st r => upsertEntry st r._id (f r)) store).lookup rid =
        some d → d.lookup k = none := by
  intro reviews
  induction reviews with
  | nil => intro store h rid d hl; exact h rid d hl
  | cons r0 rest ih =>
      intro store h rid d hl
      rw [List.foldl_cons] at hl
      refine ih _ ?_ rid d hl
      intro rid' d' hl'
      by_cases he : rid' = r0._id
      · subst he
        rw [lookup_upsertEntry_self] at hl'
        cases hl'
        rw [lookup_append, hf r0]
        rcases ho : store.lookup r0._id with _ | o
        · simp [List.lookup]
        · simp [h _ o ho]
      · rw [lookup_upsertEntry_other _ _ _ _ he] at hl'
        exact h rid' d' hl'

/-- The upsert written for a review has no `k` entry when `k` is neither a
key the enrichment data can carry nor a basic field name. -/
theorem updFor_lookup_none {ks : List String} {data : EData}
    (hkeys : dataKeysSub ks data) (k : String) (hk : k ∉ ks)
    (hb1 : k ≠ "has_response") (hb2 : k ≠ "review_length") (r : UnifiedReview) :
    (((data.lookup r._id).getD []) ++ _calculate_basic_fields r).lookup k = none := by
  have h1 : ((data.lookup r._id).getD []).lookup k = none := by
    rcases hd : data.lookup r._id with _ | attrs
    · rfl
    · exact lookup_eq_none fun p hp he =>
        hk (he ▸ hkeys (r._id, attrs) (lookup_mem hd) p hp)
  rw [lookup_append, h1]
  exact lookup_eq_none fun p hp => by
    unfold _calculate_basic_fields at hp
    rcases List.mem_cons.mp hp with rfl | hp2
    · exact fun he => hb1 he.symm
    · rcases List.mem_singleton.mp hp2 with rfl
      exact fun he => hb2 he.symm

/-- `_upsert_enriched_reviews` preserves the absence of a key `k` that the
enrichment data cannot carry. -/
theorem upsert_enriched_key_none {ks : List String} (k : String)
    (data : EData) (reviews : List UnifiedReview) (store : EStore)
    (hkeys : dataKeysSub ks data) (hk : k ∉ ks)
    (hb1 : k ≠ "has_response") (hb2 : k ≠ "review_length")
    (hstore : ∀ rid d, store.lookup rid = some d → d.lookup k = none) :
    ∀ rid d, (_upsert_enriched_reviews data reviews store).lookup rid = some d →
      d.lookup k = none := by
  unfold _upsert_enriched_reviews
  split
  · exact hstore
  · exact fold_upsert_key_none k _
      (fun r => updFor_lookup_none hkeys k hk hb1 hb2 r) reviews store hstore

theorem lookup_append2 (l1 l2 l3 : List (String × β)) (k : String) :
    ((l1 ++ l2) ++ l3).lookup k =
      match l1.lookup k with
      | some v => some v
      | none =>
          match l2.lookup k with
          | some v => some v
          | none => l3.lookup k := by
  rcases h1 : l1.lookup k with _ | v
  · rcases h2 : l2.lookup k with _ | w <;> simp [lookup_append, h1, h2]
  · simp [lookup_append, h1]

theorem lookup_append2_first {l1 l2 l3 : List (String × β)} {k : String} {v : β}
    (h : l1.lookup k = some v) : ((l1 ++ l2) ++ l3).lookup k = some v := by
  simp only [lookup_append2, h]

theorem lookup_append2_second {l1 l2 l3 : List (String × β)} {k : String} {v : β}
    (h1 : l1.lookup k = none) (h2 : l2.lookup k = some v) :
    ((l1 ++ l2) ++ l3).lookup k = some v := by
  simp only [lookup_append2, h1, h2]

theorem lookup_append2_third {l1 l2 l3 : List (String × β)} {k : String}
    (h1 : l1.lookup k = none) (h2 : l2.lookup k = none) :
    ((l1 ++ l2) ++ l3).lookup k = l3.lookup k := by
  simp only [lookup_append2, h1, h2]

theorem upsert_enriched_eq_store {data : EData} (reviews : List UnifiedReview)
    (store : EStore) (h : data = []) :
    _upsert_enriched_reviews data reviews store = store := by
  unfold _upsert_enriched_reviews
  rw [if_pos h]

theorem upsert_enriched_eq_fold {data : EData} (reviews : List UnifiedReview)
    (store : EStore) (h : data ≠ []) :
    _upsert_enriched_reviews data reviews store =
      reviews.foldl (fun st r =>
        upsertEntry st r._id (((data.lookup r._id).getD []) ++ _calculate_basic_fields r))
        store := by
  unfold _upsert_enriched_reviews
  rw [if_neg h]

/-- Core of the amended C6: one enrichment run with an arbitrary
already-merged sentiment/complaint data set whose keys are the sentiment and
complaint names, over a flag-free store, with id-faithful response replies
and distinct review ids, yields a store in which any document carrying a
response-quality flag has `has_response = 1` and `is_complaint = 1`. -/
theorem enrichment_core (env : EnrichEnv) (reviews : List UnifiedReview)
    (store : EStore) (data2 : EData) (gr : Bool)
    (hkeys2 : dataKeysSub enrichKeys data2)
    (hfaith : ∀ batch, ∀ q ∈ env.responseResp batch, q.1 ∈ batch.map (·._id))
    (hnodup : (reviews.map (·._id)).Nodup)
    (hstore : ∀ rid d, store.lookup rid = some d → flagFree d) :
    ∀ rid d,
      (_upsert_enriched_reviews
          (if gr then
            mergeData data2 (_process_response_attributes env
              (_upsert_enriched_reviews data2 reviews store) reviews)
          else data2)
        reviews (_upsert_enriched_reviews data2 reviews store)).lookup rid = some d →
      (List.lookup "has_constructive_response" d ≠ none ∨
       List.lookup "has_no_threat" d ≠ none) →
      List.lookup "has_response" d = some 1 ∧ List.lookup "is_complaint" d = some 1 := by
  have hst1hcr : ∀ rid d,
      (_upsert_enriched_reviews data2 reviews store).lookup rid = some d →
      List.lookup "has_constructive_response" d = none :=
    upsert_enriched_key_none "has_constructive_response" data2 reviews store hkeys2
      (by decide) (by decide) (by decide) (fun rid d h => (hstore rid d h).1)
  have hst1hnt : ∀ rid d,
      (_upsert_enriched_reviews data2 reviews store).lookup rid = some d →
      List.lookup "has_no_threat" d = none :=
    upsert_enriched_key_none "has_no_threat" data2 reviews store hkeys2
      (by decide) (by decide) (by decide) (fun rid d h => (hstore rid d h).2)
  intro rid d hl hflag
  cases gr with
  | false =>
      simp only [if_false, Bool.false_eq_true] at hl
      rcases hflag with h | h
      · exact absurd (upsert_enriched_key_none "has_constructive_response" data2 reviews
          (_upsert_enriched_reviews data2 reviews store) hkeys2 (by decide) (by decide)
          (by decide) hst1hcr rid d hl) h
      · exact absurd (upsert_enriched_key_none "has_no_threat" data2 reviews
          (_upsert_enriched_reviews data2 reviews store) hkeys2 (by decide) (by decide)
          (by decide) hst1hnt rid d hl) h
  | true =>
      simp only [if_true] at hl
      by_cases h3 : mergeData data2 (_process_response_attributes env
          (_upsert_enriched_reviews data2 reviews store) reviews) = []
      · rw [upsert_enriched_eq_store reviews
          (_upsert_enriched_reviews data2 reviews store) h3] at hl
        rcases hflag with h | h
        · exact absurd (hst1hcr rid d hl) h
        · exact absurd (hst1hnt rid d hl) h
      · have hrkeys := response_keys env (_upsert_enriched_reviews data2 reviews store) reviews
        by_cases hridmem : rid ∈ reviews.map (·._id)
        · obtain ⟨r, hrmem, hre⟩ := List.mem_map.mp hridmem
          subst hre
          rw [upsert_enriched_eq_fold reviews
            (_upsert_enriched_reviews data2 reviews store) h3] at hl
          have hlr := fold_upsert_lookup_mem
            (fun r => (((mergeData data2 (_process_response_attributes env
              (_upsert_enriched_reviews data2 reviews store) reviews)).lookup r._id).getD [])
              ++ _calculate_basic_fields r) reviews
            (_upsert_enriched_reviews data2 reviews store) hnodup r hrmem
          rw [hl] at hlr
          have hd : d = ((((mergeData data2 (_process_response_attributes env
              (_upsert_enriched_reviews data2 reviews store) reviews)).lookup r._id).getD [])
              ++ _calculate_basic_fields r)
              ++ ((_upsert_enriched_reviews data2 reviews store).lookup r._id).getD [] :=
            Option.some_inj.mp hlr
          have hold1hcr : (((_upsert_enriched_reviews data2 reviews store).lookup r._id).getD
              []).lookup "has_constructive_response" = none := by
            rcases ho : (_upsert_enriched_reviews data2 reviews store).lookup r._id with _ | o
            · rfl
            · exact hst1hcr r._id o ho
          have hold1hnt : (((_upsert_enriched_reviews data2 reviews store).lookup r._id).getD
              []).lookup "has_no_threat" = none := by
            rcases ho : (_upsert_enriched_reviews data2 reviews store).lookup r._id with _ | o
            · rfl
            · exact hst1hnt r._id o ho
          have hflag3 : ∃ fk, fk ∈ responseAttributeNames ∧
              (((mergeData data2 (_process_response_attributes env
                (_upsert_enriched_reviews data2 reviews store) reviews)).lookup r._id).getD
                []).lookup fk ≠ none := by
            rcases hflag with h | h
            · refine ⟨"has_constructive_response", by decide, fun hnone => h ?_⟩
              rw [hd, lookup_append2, hnone]
              simp [_calculate_basic_fields, List.lookup, hold1hcr]
            · refine ⟨"has_no_threat", by decide, fun hnone => h ?_⟩
              rw [hd, lookup_append2, hnone]
              simp [_calculate_basic_fields, List.lookup, hold1hnt]
          obtain ⟨fk, hfkmem, hfkne⟩ := hflag3
          obtain ⟨v, hv⟩ := Option.ne_none_iff_exists'.mp hfkne
          rcases hD3 : (mergeData data2 (_process_response_attributes env
              (_upsert_enriched_reviews data2 reviews store) reviews)).lookup r._id
            with _ | attrs3
          · rw [hD3] at hv
            cases hv
          · rw [hD3] at hv
            simp only [Option.getD_some] at hv
            have hattr_mem : (fk, v) ∈ attrs3 := lookup_mem hv
            have hentry := lookup_mem hD3
            have hfk_notin : fk ∉ enrichKeys := by
              rcases List.mem_cons.mp hfkmem with rfl | h2
              · decide
              · rcases List.mem_singleton.mp h2 with rfl
                decide
            rcases mergeData_origin data2 _ _ hentry (fk, v) hattr_mem with
              ⟨q, hq, _, ha'⟩ | ⟨q, hq, he, ha'⟩
            · exact absurd (hkeys2 q hq (fk, v) ha') hfk_notin
            · have hrid_elig := response_rids env
                (_upsert_enriched_reviews data2 reviews store) reviews hfaith q hq
              rw [he] at hrid_elig
              obtain ⟨re, hre_mem, hre_id⟩ := List.mem_map.mp hrid_elig
              have hre_filter := List.mem_filter.mp hre_mem
              have hprops := of_decide_eq_true hre_filter.2
              have hsame : re = r :=
                List.inj_on_of_nodup_map hnodup hre_filter.1 hrmem hre_id
              rw [hsame] at hprops
              have htruthy : truthyS r.response_from_owner_text = true := hprops.1
              have hic : storedIsComplaint
                  (_upsert_enriched_reviews data2 reviews store) r._id = 1 := hprops.2
              have hic1 : ∃ o, (_upsert_enriched_reviews data2 reviews store).lookup r._id =
                  some o ∧ o.lookup "is_complaint" = some 1 := by
                unfold storedIsComplaint at hic
                rcases ho : (_upsert_enriched_reviews data2 reviews store).lookup r._id
                  with _ | o
                · rw [ho] at hic
                  simp at hic
                · rw [ho] at hic
                  rcases hoc : o.lookup "is_complaint" with _ | c
                  · rw [Option.some_bind, hoc] at hic
                    simp at hic
                  · rw [Option.some_bind, hoc] at hic
                    simp only [Option.getD_some] at hic
                    refine ⟨o, rfl, ?_⟩
                    rw [hoc, hic]
              obtain ⟨o, ho, hoc⟩ := hic1
              have hA3hr : attrs3.lookup "has_response" = none := by
                apply lookup_eq_none
                intro p hp he2
                rcases mergeData_origin data2 _ _ hentry p hp with
                  ⟨q', hq', _, hpa⟩ | ⟨q', hq', _, hpa⟩
                · exact absurd (he2 ▸ hkeys2 q' hq' p hpa) (by decide)
                · exact absurd (he2 ▸ hrkeys q' hq' p hpa) (by decide)
              have hbasic_hr : (_calculate_basic_fields r).lookup "has_response" = some 1 := by
                simp [_calculate_basic_fields, List.lookup, htruthy]
              constructor
              · rw [hd, hD3]
                simp only [Option.getD_some]
                exact lookup_append2_second hA3hr hbasic_hr
              · have hnoic : ∀ q' ∈ _process_response_attributes env
                    (_upsert_enriched_reviews data2 reviews store) reviews,
                    ∀ a ∈ q'.2, a.1 ≠ "is_complaint" := by
                  intro q' hq' a ha2 he2
                  exact absurd (he2 ▸ hrkeys q' hq' a ha2) (by decide)
                have hpres := mergeData_lookup_key_preserved _ "is_complaint" hnoic data2 r._id
                rw [hD3] at hpres
                simp only [Option.getD_some] at hpres
                have hbasic_ic : (_calculate_basic_fields r).lookup "is_complaint" = none := by
                  simp [_calculate_basic_fields, List.lookup]
                rcases hA3ic : attrs3.lookup "is_complaint" with _ | c
                · rw [hd, hD3]
                  simp only [Option.getD_some]
                  rw [lookup_append2_third hA3ic hbasic_ic, ho]
                  simp only [Option.getD_some]
                  exact hoc
                · have hA2ic : ((data2.lookup r._id).getD []).lookup "is_complaint" =
                      some c := by
                    rw [← hpres]
                    exact hA3ic
                  by_cases h2e : data2 = []
                  · rw [h2e] at hA2ic
                    simp [List.lookup] at hA2ic
                  · have hst1look := fold_upsert_lookup_mem
                      (fun r => ((data2.lookup r._id).getD []) ++ _calculate_basic_fields r)
                      reviews store hnodup r hrmem
                    have hst1eq : (_upsert_enriched_reviews data2 reviews store).lookup r._id =
                        some ((((data2.lookup r._id).getD []) ++ _calculate_basic_fields r)
                          ++ (store.lookup r._id).getD []) := by
                      rw [upsert_enriched_eq_fold reviews store h2e]
                      exact hst1look
                    rw [ho] at hst1eq
                    have hOeq := Option.some_inj.mp hst1eq
                    have hoic2 : o.lookup "is_complaint" = some c := by
                      rw [hOeq]
                      exact lookup_append2_first hA2ic
                    rw [hoc] at hoic2
                    have hc := Option.some_inj.mp hoic2
                    rw [hd, hD3]
                    simp only [Option.getD_some]
                    rw [← hc] at hA3ic
                    exact lookup_append2_first hA3ic
        · rw [upsert_enriched_eq_fold reviews
            (_upsert_enriched_reviews data2 reviews store) h3] at hl
          rw [fold_upsert_lookup_untouched _ reviews _ rid hridmem] at hl
          rcases hflag with h | h
          · exact absurd (hst1hcr rid d hl) h
          · exact absurd (hst1hnt rid d hl) h

theorem sentiment_phase_keys (env : EnrichEnv) (reviews : List UnifiedReview)
    (names : List String) (hsub : ∀ n ∈ names, n ∈ sentimentAttributeNames) :
    dataKeysSub enrichKeys (_process_sentiment_attributes env reviews names) := by
  unfold _process_sentiment_attributes
  apply foldl_mergeData_keys _ _ ?_ [] (fun p hp => absurd hp (List.not_mem_nil p))
  intro b _ q hq a ha
  have hk := validate_sentiment_keys (env.sentimentResp names b) names q hq a ha
  exact List.mem_append.mpr (Or.inl (hsub _ hk))

theorem complaint_phase_keys (env : EnrichEnv) (reviews : List UnifiedReview) :
    dataKeysSub enrichKeys (_process_complaint_attribute env reviews) := by
  unfold _process_complaint_attribute
  apply foldl_mergeData_keys _ _ ?_ [] (fun p hp => absurd hp (List.not_mem_nil p))
  intro b _ q hq a ha
  have hk := validate_binary_keys (env.complaintResp b) ["is_complaint"] q hq a ha
  rw [List.mem_singleton.mp hk]
  decide

/-- C6.  The spec's response-flag invariant as stated fails: the response phase
trusts the model's reply ids, so a hallucinated id can attach
`has_constructive_response` to a review whose own document has
`has_response = 0` and `is_complaint = 0` (counterexample
`enrichment_flag_invariant_cex`).  Amended form, proved here: over a single
`process_reviews` run starting from a store free of response-quality flags,
provided the response model's replies only name ids from the prompted batch
and the processed reviews have distinct ids, every document of the resulting
store that carries `has_constructive_response` or `has_no_threat` also has
`has_response = 1` and `is_complaint = 1`. -/
theorem enrichment_response_flags_invariant (env : EnrichEnv)
    (groups : EnrichGroups) (reviews : List UnifiedReview) (store : EStore)
    (hstore : ∀ rid d, store.lookup rid = some d → flagFree d)
    (hfaith : ∀ batch, ∀ q ∈ env.responseResp batch, q.1 ∈ batch.map (·._id))
    (hnodup : (reviews.map (·._id)).Nodup) :
    ∀ rid d, (process_reviews env groups reviews store).lookup rid = some d →
      (List.lookup "has_constructive_response" d ≠ none ∨
       List.lookup "has_no_threat" d ≠ none) →
      List.lookup "has_response" d = some 1 ∧
      List.lookup "is_complaint" d = some 1 := by
  have hd1 : dataKeysSub enrichKeys
      (if groups.sentiment then
        (chunkList 3 sentimentAttributeNames).foldl
          (fun d names => mergeData d (_process_sentiment_attributes env reviews names))
          []
       else []) := by
    cases hgs : groups.sentiment
    · simp only [Bool.false_eq_true, if_false]
      exact fun p hp => absurd hp (List.not_mem_nil p)
    · simp only [if_true]
      apply foldl_mergeData_keys _ _ ?_ [] (fun p hp => absurd hp (List.not_mem_nil p))
      intro names hnames q hq a ha
      apply sentiment_phase_keys env reviews names ?_ q hq a ha
      intro n hn
      have hj : (chunkList 3 sentimentAttributeNames).join = sentimentAttributeNames :=
        chunkList_join 3 sentimentAttributeNames
      exact hj ▸ List.mem_join.mpr ⟨names, hnames, hn⟩
  have hkeys2 : dataKeysSub enrichKeys
      (if groups.complaint then
        mergeData
          (if groups.sentiment then
            (chunkList 3 sentimentAttributeNames).foldl
              (fun d names => mergeData d (_process_sentiment_attributes env reviews names))
              []
           else [])
          (_process_complaint_attribute env reviews)
       else
        (if groups.sentiment then
          (chunkList 3 sentimentAttributeNames).foldl
            (fun d names => mergeData d (_process_sentiment_attributes env reviews names))
            []
         else [])) := by
    cases hgc : groups.complaint
    · simp only [Bool.false_eq_true, if_false]
      exact hd1
    · simp only [if_true]
      exact dataKeysSub_mergeData hd1
        (fun q hq a ha => complaint_phase_keys env reviews q hq a ha)
  intro rid d hl hflag
  exact enrichment_core env reviews store _ groups.response hkeys2 hfaith hnodup hstore
    rid d hl hflag

/-- Witness for the amended C6 theorem at a concrete id-faithful environment,
two distinct reviews (one with an owner response) and an empty initial store:
the enriched document of the responded-to review carries both flags together
with `has_response = 1` and `is_complaint = 1`. -/
theorem enrichment_response_flags_invariant_witness :
    List.lookup "has_response"
        [("has_constructive_response", (1 : Int)), ("has_no_threat", 1),
         ("is_complaint", 1), ("has_response", 1), ("review_length", 4),
         ("is_complaint", 1), ("has_response", 1), ("review_length", 4)] = some 1 ∧
    List.lookup "is_complaint"
        [("has_constructive_response", (1 : Int)), ("has_no_threat", 1),
         ("is_complaint", 1), ("has_response", 1), ("review_length", 4),
         ("is_complaint", 1), ("has_response", 1), ("review_length", 4)] = some 1 :=
  enrichment_response_flags_invariant enrichEnvOK ⟨false, true, true⟩
    [uSample, uRespSample] []
    (fun _ _ h => by simp [List.lookup] at h)
    (by
      intro batch q hq
      obtain ⟨r, hr, he⟩ := List.mem_map.mp hq
      exact he ▸ List.mem_map_of_mem _ hr)
    (by decide)
    "64aa00000000000000000002"
    [("has_constructive_response", (1 : Int)), ("has_no_threat", 1),
     ("is_complaint", 1), ("has_response", 1), ("review_length", 4),
     ("is_complaint", 1), ("has_response", 1), ("review_length", 4)]
    (by decide)
    (Or.inl (by decide))

end Verisanus
